import Mathlib

/-!
Verification of the color-resolution core of `color_to_hex.py`.

The Python source is shallowly embedded: every `def` of the source that the
claims touch is translated to a Lean function of the same name.  Python
strings are `String`/`List Char`, machine ints are `ℕ`/`ℤ`, floats are
modelled by exact rationals (`ℚ`); each place where the float model could
diverge from IEEE doubles is noted at the definition it concerns, and no
theorem below depends on such a boundary case.  Python exceptions are
modelled by `Except ColorErr`, with one constructor per `raise` site.

The source delegates to two libraries whose behaviour the claims depend on:
`PIL.ImageColor.getrgb` (Pillow) and `difflib.get_close_matches` (CPython
stdlib).  Both are embedded here as well, translated from their published
sources (`PIL/ImageColor.py`, `cpython/Lib/difflib.py`); comments at the
definitions record the correspondence.  The module-level color database
`CSS3_NAMES_TO_HEX` is taken from the fallback literal in the source
(lines 22-32), i.e. the configuration in which the optional `webcolors`
package is not installed; the `KNOWN_NAMES` list is its sorted key list as
in line 35.
-/

namespace ColorToHex

/-- RGB triple as handled by the Python code.  The code never produces
negative components, so naturals suffice; values above 255 are
representable, which matters for the unclamped PIL `rgb()` passthrough. -/
abbrev Rgb := ℕ × ℕ × ℕ

/-- One constructor per `raise ValueError` site of the embedded code. -/
inductive ColorErr where
  /-- parse_color_input line 265: empty input. -/
  | emptyInput : ColorErr
  /-- text_to_rgb_extended line 175: empty input. -/
  | emptyText : ColorErr
  /-- parse_color_input line 300: rgb() with fewer than 3 components. -/
  | rgbNeeds3 : ColorErr
  /-- parse_color_input line 311: hsl() with fewer than 3 components. -/
  | hslNeeds3 : ColorErr
  /-- parse_numeric_token line 67; payload is the (stripped) token of the message. -/
  | badToken (tok : String) : ColorErr
  /-- float() failures inside the hsl() branch of parse_color_input. -/
  | badFloat (s : String) : ColorErr
  /-- text_to_rgb_extended line 255; payload is the text the message interpolates. -/
  | unrecognized (payload : String) : ColorErr
  /-- parse_color_input line 334 (no fallback given); payload as interpolated. -/
  | unrecognizedFormat (payload : String) : ColorErr
deriving DecidableEq, Repr

/-- Decidable equality of resolution results, so that concrete runs of the
embedded program can be checked by decide. -/
instance {ε α : Type} [DecidableEq ε] [DecidableEq α] : DecidableEq (Except ε α) :=
  fun x y =>
    match x, y with
    | .ok a, .ok b =>
      if h : a = b then isTrue (by rw [h]) else isFalse (by simp [h])
    | .error a, .error b =>
      if h : a = b then isTrue (by rw [h]) else isFalse (by simp [h])
    | .ok _, .error _ => isFalse (by simp)
    | .error _, .ok _ => isFalse (by simp)

/-- Exact rational number in unreduced num/den form, used to model Python
float values.  (Lean's ℚ normalizes through Nat.gcd, which is defined by
well-founded recursion and therefore does not reduce inside the kernel;
this representation keeps every arithmetic step kernel-computable.  Every
PyQ built below has a positive denominator.)  The IEEE doubles of the
source are modelled by the exact rationals of the literals involved; no
comparison or rounding below sits close enough to a representable-double
boundary for that to change any branch taken, as noted per use site. -/
structure PyQ where
  num : ℤ
  den : ℕ
deriving DecidableEq, Repr

/-- Embed an integer. -/
def PyQ.ofInt (n : ℤ) : PyQ := ⟨n, 1⟩

/-- Embed a natural. -/
def PyQ.ofNat (n : ℕ) : PyQ := ⟨(n : ℤ), 1⟩

/-- Addition on unreduced rationals. -/
def PyQ.add (x y : PyQ) : PyQ :=
  ⟨x.num * (y.den : ℤ) + y.num * (x.den : ℤ), x.den * y.den⟩

/-- Subtraction. -/
def PyQ.sub (x y : PyQ) : PyQ :=
  ⟨x.num * (y.den : ℤ) - y.num * (x.den : ℤ), x.den * y.den⟩

/-- Multiplication. -/
def PyQ.mul (x y : PyQ) : PyQ :=
  ⟨x.num * y.num, x.den * y.den⟩

/-- Negation. -/
def PyQ.neg (x : PyQ) : PyQ := ⟨-x.num, x.den⟩

/-- Division by a positive natural (the only divisions the source performs
are by positive integer constants or counts). -/
def PyQ.divNat (x : PyQ) (d : ℕ) : PyQ := ⟨x.num, x.den * d⟩

/-- Strict comparison by cross-multiplication (denominators positive). -/
def PyQ.ltB (x y : PyQ) : Bool :=
  x.num * (y.den : ℤ) < y.num * (x.den : ℤ)

/-- Non-strict comparison. -/
def PyQ.leB (x y : PyQ) : Bool :=
  x.num * (y.den : ℤ) ≤ y.num * (x.den : ℤ)

/-- Mathematical floor (Python // and math.floor). -/
def PyQ.floorI (x : PyQ) : ℤ := x.num.fdiv (x.den : ℤ)

/-- Python int() truncation toward zero. -/
def PyQ.truncI (x : PyQ) : ℤ := x.num.tdiv (x.den : ℤ)

/-- Whitespace in the sense of Python str.strip() and of regex \s (ASCII
range): space, tab, newline, carriage return, vertical tab, form feed. -/
def isPyWs (c : Char) : Bool :=
  c == ' ' || c == Char.ofNat 9 || c == Char.ofNat 10 || c == Char.ofNat 13 ||
  c == Char.ofNat 11 || c == Char.ofNat 12

/-- ASCII decimal digit. -/
def isDigitC (c : Char) : Bool :=
  '0' ≤ c && c ≤ '9'

/-- Lowercase ASCII letter. -/
def isLowerAZ (c : Char) : Bool :=
  'a' ≤ c && c ≤ 'z'

/-- ASCII lowercasing of one character, as Python str.lower() acts on the
ASCII range.  (Python lowercases the full Unicode range; the two agree on
every character that can survive normalize_name, whose character class
keeps only ASCII.) -/
def pyLowerChar (c : Char) : Char :=
  if 'A' ≤ c ∧ c ≤ 'Z' then Char.ofNat (c.toNat + 32) else c

/-- Drop trailing characters satisfying p. -/
def dropTrailing (p : Char → Bool) (l : List Char) : List Char :=
  (l.reverse.dropWhile p).reverse

/-- Python str.strip() on a character list. -/
def pyStripL (l : List Char) : List Char :=
  dropTrailing isPyWs (l.dropWhile isPyWs)

/-- Python str.strip() on strings. -/
def pyStrip (s : String) : String :=
  ⟨pyStripL s.data⟩

/-- Python str.rstrip(chars): drop trailing characters belonging to the set. -/
def pyRstripSet (set : List Char) (l : List Char) : List Char :=
  dropTrailing (fun c => set.contains c) l

/-- Helper of collapseRuns; the flag records whether the previous kept
character came from a run being collapsed. -/
def collapseRunsAux (p : Char → Bool) (rep : Char) : Bool → List Char → List Char
  | _, [] => []
  | prevP, c :: rest =>
    if p c then
      (if prevP then [] else [rep]) ++ collapseRunsAux p rep true rest
    else
      c :: collapseRunsAux p rep false rest

/-- Replace every maximal nonempty run of characters satisfying p by the
single character rep: the effect of re.sub with a one-class-plus pattern. -/
def collapseRuns (p : Char → Bool) (rep : Char) (l : List Char) : List Char :=
  collapseRunsAux p rep false l

/-- Character class kept by the normalizer regex [^a-z0-9#(),\s-] (its
complement is replaced by a space). -/
def isNormKept (c : Char) : Bool :=
  isLowerAZ c || isDigitC c || c == '#' || c == '(' || c == ')' || c == ',' ||
  isPyWs c || c == '-'

/-- Tab, newline or carriage return: the class of the first substitution. -/
def isTNR (c : Char) : Bool :=
  c == Char.ofNat 9 || c == Char.ofNat 10 || c == Char.ofNat 13

/-- Hyphen or underscore: the class of the [-_]+ substitution. -/
def isDashU (c : Char) : Bool :=
  c == '-' || c == '_'

/-- Translation of normalize_name (source lines 90-99): lowercase, strip,
collapse [\t\n\r]+ to one space, replace every character outside
[a-z0-9#(),\s-] by a space, collapse [-_]+ runs to one space, collapse \s+
runs to one space. -/
def normalize_nameL (t : List Char) : List Char :=
  if t = [] then [] else
  let s1 := pyStripL (t.map pyLowerChar)
  let s2 := collapseRuns isTNR ' ' s1
  let s3 := s2.map (fun c => if isNormKept c then c else ' ')
  let s4 := collapseRuns isDashU ' ' s3
  collapseRuns isPyWs ' ' s4

/-- String wrapper of normalize_nameL. -/
def normalize_name (t : String) : String :=
  ⟨normalize_nameL t.data⟩

/-- Python round() with the float argument modelled as an exact rational:
round half to even.  With f the floor and rem the remainder in [0, den),
the fractional part compares to one half by 2*rem against den. -/
def pyRound (q : PyQ) : ℤ :=
  let f := q.floorI
  let rem2 : ℤ := 2 * (q.num - f * (q.den : ℤ))
  if rem2 < (q.den : ℤ) then f
  else if (q.den : ℤ) < rem2 then f + 1
  else if f % 2 = 0 then f else f + 1

/-- Translation of clamp255 (source lines 50-51): max(0, min(255, int(round(v)))). -/
def clamp255 (v : PyQ) : ℕ :=
  let r := pyRound v
  if r < 0 then 0 else if 255 < r then 255 else r.toNat

/-- Numeric value of a digit list (the int() of a string of digits). -/
def digitsVal (l : List Char) : ℕ :=
  l.foldl (fun acc c => 10 * acc + (c.toNat - 48)) 0

/-- Python float() literal parsing, modelled for finite decimal literals
with optional sign, fraction and exponent.  The special spellings inf and
nan are folded into the failure case: the source feeds the result to
int(round(.)), which raises on them just as the ValueError branch does. -/
def pyFloat (l0 : List Char) : Option PyQ :=
  let l := pyStripL l0
  let signAndRest : Bool × List Char :=
    match l with
    | '-' :: r => (true, r)
    | '+' :: r => (false, r)
    | r => (false, r)
  let ip := signAndRest.2.takeWhile isDigitC
  let afterInt := signAndRest.2.dropWhile isDigitC
  let fracAndRest : List Char × List Char :=
    match afterInt with
    | '.' :: r => (r.takeWhile isDigitC, r.dropWhile isDigitC)
    | r => ([], r)
  let fp := fracAndRest.1
  let rest := fracAndRest.2
  if ip = [] ∧ fp = [] then none else
  let mant : PyQ := ⟨(digitsVal ip * 10 ^ fp.length + digitsVal fp : ℕ), 10 ^ fp.length⟩
  let mantissa : PyQ := if signAndRest.1 then mant.neg else mant
  let applyExp : List Char → Option PyQ := fun er =>
    match er with
    | '-' :: ds =>
      if ds ≠ [] ∧ ds.all isDigitC then some (mantissa.divNat (10 ^ digitsVal ds))
      else none
    | '+' :: ds =>
      if ds ≠ [] ∧ ds.all isDigitC then some (mantissa.mul (PyQ.ofNat (10 ^ digitsVal ds)))
      else none
    | ds =>
      if ds ≠ [] ∧ ds.all isDigitC then some (mantissa.mul (PyQ.ofNat (10 ^ digitsVal ds)))
      else none
  match rest with
  | [] => some mantissa
  | 'e' :: er => applyExp er
  | 'E' :: er => applyExp er
  | _ => none

/-- Translation of parse_numeric_token (source lines 54-67).  The token is
stripped first; a match of PERC_RE (one to three digits then a percent
sign) is scaled from percent, a pure digit string is taken as an integer,
anything else goes through float(); every success path ends in clamp255.
The error payload is the stripped token, as interpolated by the message. -/
def parse_numeric_token (tok : String) : Except ColorErr ℕ :=
  let t := pyStripL tok.data
  let percRe : Option (List Char) :=
    match dropTrailing (fun c => c == '%') t, t.getLast? with
    | ds, some '%' =>
      if ds.length = t.length - 1 ∧ 1 ≤ ds.length ∧ ds.length ≤ 3 ∧ ds.all isDigitC
      then some ds else none
    | _, _ => none
  match percRe with
  | some ds => .ok (clamp255 ⟨(digitsVal ds * 255 : ℕ), 100⟩)
  | none =>
    if t ≠ [] ∧ t.all isDigitC then .ok (clamp255 (PyQ.ofNat (digitsVal t)))
    else
      match pyFloat t with
      | some q => .ok (clamp255 q)
      | none => .error (.badToken ⟨t⟩)

/-- Lowercase hexadecimal digit (the PIL patterns run on the lowercased
string, so [a-f0-9] suffices). -/
def isHexLower (c : Char) : Bool :=
  isDigitC c || ('a' ≤ c && c ≤ 'f')

/-- Value of a lowercase hexadecimal digit. -/
def hexValL (c : Char) : ℕ :=
  if isDigitC c then c.toNat - 48 else c.toNat - 87

/-- Value of a duplicated hex digit, as in the PIL 3- and 4-digit forms. -/
def hexDub (c : Char) : ℕ :=
  16 * hexValL c + hexValL c

/-- Value of a two-digit hex pair. -/
def hexPairV (a b : Char) : ℕ :=
  16 * hexValL a + hexValL b

/-- Translation of the four anchored hex branches of PIL ImageColor.getrgb:
#rgb, #rgba, #rrggbb, #rrggbbaa (on the lowercased string). -/
def pilHex (cs : List Char) : Option (List ℕ) :=
  match cs with
  | '#' :: r =>
    if r.all isHexLower then
      match r with
      | [a, b, c] => some [hexDub a, hexDub b, hexDub c]
      | [a, b, c, d] => some [hexDub a, hexDub b, hexDub c, hexDub d]
      | [a, b, c, d, e, f] => some [hexPairV a b, hexPairV c d, hexPairV e f]
      | [a, b, c, d, e, f, g, h] =>
        some [hexPairV a b, hexPairV c d, hexPairV e f, hexPairV g h]
      | _ => none
    else none
  | _ => none

/-- Skip regex \s* . -/
def skipWs (l : List Char) : List Char :=
  l.dropWhile isPyWs

/-- Consume regex \d+ and return its integer value. -/
def readNat (l : List Char) : Option (ℕ × List Char) :=
  let ds := l.takeWhile isDigitC
  if ds = [] then none else some (digitsVal ds, l.dropWhile isDigitC)

/-- Consume one expected character. -/
def expectChar (c : Char) (l : List Char) : Option (List Char) :=
  match l with
  | x :: r => if x = c then some r else none
  | [] => none

/-- Consume regex (\d+\.?\d*) of the PIL hsl/hsv patterns and return its
float() value as an exact rational. -/
def readPilFloat (l : List Char) : Option (PyQ × List Char) :=
  let ds := l.takeWhile isDigitC
  if ds = [] then none else
  let r := l.dropWhile isDigitC
  match r with
  | '.' :: r2 =>
    let fs := r2.takeWhile isDigitC
    some (⟨(digitsVal ds * 10 ^ fs.length + digitsVal fs : ℕ), 10 ^ fs.length⟩,
          r2.dropWhile isDigitC)
  | _ => some (PyQ.ofNat (digitsVal ds), r)

/-- Translation of the PIL pattern rgb\(\s*(\d+)\s*,\s*(\d+)\s*,\s*(\d+)\s*\)$ .
The captured integers are returned unclamped, exactly as PIL does. -/
def pilRgbInts (cs : List Char) : Option (List ℕ) := do
  match cs with
  | 'r' :: 'g' :: 'b' :: '(' :: rest =>
    let (a, r1) ← readNat (skipWs rest)
    let r2 ← expectChar ',' (skipWs r1)
    let (b, r3) ← readNat (skipWs r2)
    let r4 ← expectChar ',' (skipWs r3)
    let (c, r5) ← readNat (skipWs r4)
    let r6 ← expectChar ')' (skipWs r5)
    if r6 = [] then some [a, b, c] else none
  | _ => none

/-- Percentage scaling int(p * 255 / 100.0 + 0.5) of the PIL percent branch,
as an exact natural computation (the float expression is exact at every
half-integer boundary, so the two agree on all inputs). -/
def pilPercScale (p : ℕ) : ℕ :=
  (510 * p + 100) / 200

/-- Translation of the PIL pattern rgb\(\s*(\d+)%\s*,\s*(\d+)%\s*,\s*(\d+)%\s*\)$ . -/
def pilRgbPercent (cs : List Char) : Option (List ℕ) := do
  match cs with
  | 'r' :: 'g' :: 'b' :: '(' :: rest =>
    let (a, r1) ← readNat (skipWs rest)
    let r1 ← expectChar '%' r1
    let r2 ← expectChar ',' (skipWs r1)
    let (b, r3) ← readNat (skipWs r2)
    let r3 ← expectChar '%' r3
    let r4 ← expectChar ',' (skipWs r3)
    let (c, r5) ← readNat (skipWs r4)
    let r5 ← expectChar '%' r5
    let r6 ← expectChar ')' (skipWs r5)
    if r6 = [] then some [pilPercScale a, pilPercScale b, pilPercScale c] else none
  | _ => none

/-- Fractional part, the value of the Python expression hue % 1.0 . -/
def fract1 (q : PyQ) : PyQ :=
  ⟨q.num - q.floorI * (q.den : ℤ), q.den⟩

/-- Helper _v of colorsys.hls_to_rgb, with floats as exact rationals. -/
def colorsysV (m1 m2 hue0 : PyQ) : PyQ :=
  let hue := fract1 hue0
  if hue.ltB ⟨1, 6⟩ then m1.add (((m2.sub m1).mul hue).mul (PyQ.ofNat 6))
  else if hue.ltB ⟨1, 2⟩ then m2
  else if hue.ltB ⟨2, 3⟩ then
    m1.add (((m2.sub m1).mul ((⟨2, 3⟩ : PyQ).sub hue)).mul (PyQ.ofNat 6))
  else m1

/-- Translation of colorsys.hls_to_rgb (CPython Lib/colorsys.py), with the
float constants ONE_THIRD etc. as exact rationals. -/
def hls_to_rgb (h l s : PyQ) : PyQ × PyQ × PyQ :=
  if s.num = 0 then (l, l, l)
  else
    let m2 := if l.leB ⟨1, 2⟩ then l.mul ((PyQ.ofNat 1).add s)
              else (l.add s).sub (l.mul s)
    let m1 := ((PyQ.ofNat 2).mul l).sub m2
    (colorsysV m1 m2 (h.add ⟨1, 3⟩), colorsysV m1 m2 h,
     colorsysV m1 m2 (h.sub ⟨1, 3⟩))

/-- Translation of colorsys.hsv_to_rgb (CPython Lib/colorsys.py). -/
def hsv_to_rgb (h s v : PyQ) : PyQ × PyQ × PyQ :=
  if s.num = 0 then (v, v, v)
  else
    let h6 := h.mul (PyQ.ofNat 6)
    let i0 : ℤ := h6.truncI
    let f : PyQ := h6.sub (PyQ.ofInt i0)
    let p := v.mul ((PyQ.ofNat 1).sub s)
    let q := v.mul ((PyQ.ofNat 1).sub (s.mul f))
    let t := v.mul ((PyQ.ofNat 1).sub (s.mul ((PyQ.ofNat 1).sub f)))
    let i := i0 % 6
    if i = 0 then (v, t, p)
    else if i = 1 then (q, v, p)
    else if i = 2 then (p, v, t)
    else if i = 3 then (p, q, v)
    else if i = 4 then (t, p, v)
    else (v, p, q)

/-- Rounding int(x * 255 + 0.5) used by the PIL hsl/hsv branches; int()
truncates toward zero (negative values only arise from out-of-range
percentage inputs, where the negative result is clipped to ℕ here; no
claim exercises that corner). -/
def pilScale255 (x : PyQ) : ℕ :=
  (((x.mul (PyQ.ofNat 255)).add ⟨1, 2⟩).truncI).toNat

/-- Translation of the PIL pattern
hsl\(\s*(\d+\.?\d*)\s*,\s*(\d+\.?\d*)%\s*,\s*(\d+\.?\d*)%\s*\)$ and its
conversion through colorsys.hls_to_rgb. -/
def pilHsl (cs : List Char) : Option (List ℕ) := do
  match cs with
  | 'h' :: 's' :: 'l' :: '(' :: rest =>
    let (h, r1) ← readPilFloat (skipWs rest)
    let r2 ← expectChar ',' (skipWs r1)
    let (s, r3) ← readPilFloat (skipWs r2)
    let r3 ← expectChar '%' r3
    let r4 ← expectChar ',' (skipWs r3)
    let (l, r5) ← readPilFloat (skipWs r4)
    let r5 ← expectChar '%' r5
    let r6 ← expectChar ')' (skipWs r5)
    if r6 = [] then
      let rgb := hls_to_rgb (h.divNat 360) (l.divNat 100) (s.divNat 100)
      some [pilScale255 rgb.1, pilScale255 rgb.2.1, pilScale255 rgb.2.2]
    else none
  | _ => none

/-- Translation of the PIL pattern
hs[bv]\(\s*(\d+\.?\d*)\s*,\s*(\d+\.?\d*)%\s*,\s*(\d+\.?\d*)%\s*\)$ and its
conversion through colorsys.hsv_to_rgb. -/
def pilHsv (cs : List Char) : Option (List ℕ) := do
  match cs with
  | 'h' :: 's' :: x :: '(' :: rest =>
    if x = 'b' ∨ x = 'v' then
      let (h, r1) ← readPilFloat (skipWs rest)
      let r2 ← expectChar ',' (skipWs r1)
      let (s, r3) ← readPilFloat (skipWs r2)
      let r3 ← expectChar '%' r3
      let r4 ← expectChar ',' (skipWs r3)
      let (v, r5) ← readPilFloat (skipWs r4)
      let r5 ← expectChar '%' r5
      let r6 ← expectChar ')' (skipWs r5)
      if r6 = [] then
        let rgb := hsv_to_rgb (h.divNat 360) (s.divNat 100) (v.divNat 100)
        some [pilScale255 rgb.1, pilScale255 rgb.2.1, pilScale255 rgb.2.2]
      else none
    else none
  | _ => none

/-- Translation of the PIL pattern
rgba\(\s*(\d+)\s*,\s*(\d+)\s*,\s*(\d+)\s*,\s*(\d+)\s*\)$ (unclamped, four
components). -/
def pilRgba (cs : List Char) : Option (List ℕ) := do
  match cs with
  | 'r' :: 'g' :: 'b' :: 'a' :: '(' :: rest =>
    let (a, r1) ← readNat (skipWs rest)
    let r2 ← expectChar ',' (skipWs r1)
    let (b, r3) ← readNat (skipWs r2)
    let r4 ← expectChar ',' (skipWs r3)
    let (c, r5) ← readNat (skipWs r4)
    let r6 ← expectChar ',' (skipWs r5)
    let (d, r7) ← readNat (skipWs r6)
    let r8 ← expectChar ')' (skipWs r7)
    if r8 = [] then some [a, b, c, d] else none
  | _ => none

/-- Translation of PIL.ImageColor.colormap (Pillow, ImageColor.py): the CSS3
extended color keywords plus rebeccapurple, mapping lowercase names to
#rrggbb strings exactly as stored there. -/
def pilColormap : List (String × String) := [
  ("aliceblue", "#f0f8ff"), ("antiquewhite", "#faebd7"), ("aqua", "#00ffff"),
  ("aquamarine", "#7fffd4"), ("azure", "#f0ffff"), ("beige", "#f5f5dc"),
  ("bisque", "#ffe4c4"), ("black", "#000000"), ("blanchedalmond", "#ffebcd"),
  ("blue", "#0000ff"), ("blueviolet", "#8a2be2"), ("brown", "#a52a2a"),
  ("burlywood", "#deb887"), ("cadetblue", "#5f9ea0"), ("chartreuse", "#7fff00"),
  ("chocolate", "#d2691e"), ("coral", "#ff7f50"), ("cornflowerblue", "#6495ed"),
  ("cornsilk", "#fff8dc"), ("crimson", "#dc143c"), ("cyan", "#00ffff"),
  ("darkblue", "#00008b"), ("darkcyan", "#008b8b"), ("darkgoldenrod", "#b8860b"),
  ("darkgray", "#a9a9a9"), ("darkgrey", "#a9a9a9"), ("darkgreen", "#006400"),
  ("darkkhaki", "#bdb76b"), ("darkmagenta", "#8b008b"),
  ("darkolivegreen", "#556b2f"), ("darkorange", "#ff8c00"),
  ("darkorchid", "#9932cc"), ("darkred", "#8b0000"), ("darksalmon", "#e9967a"),
  ("darkseagreen", "#8fbc8f"), ("darkslateblue", "#483d8b"),
  ("darkslategray", "#2f4f4f"), ("darkslategrey", "#2f4f4f"),
  ("darkturquoise", "#00ced1"), ("darkviolet", "#9400d3"),
  ("deeppink", "#ff1493"), ("deepskyblue", "#00bfff"), ("dimgray", "#696969"),
  ("dimgrey", "#696969"), ("dodgerblue", "#1e90ff"), ("firebrick", "#b22222"),
  ("floralwhite", "#fffaf0"), ("forestgreen", "#228b22"), ("fuchsia", "#ff00ff"),
  ("gainsboro", "#dcdcdc"), ("ghostwhite", "#f8f8ff"), ("gold", "#ffd700"),
  ("goldenrod", "#daa520"), ("gray", "#808080"), ("grey", "#808080"),
  ("green", "#008000"), ("greenyellow", "#adff2f"), ("honeydew", "#f0fff0"),
  ("hotpink", "#ff69b4"), ("indianred", "#cd5c5c"), ("indigo", "#4b0082"),
  ("ivory", "#fffff0"), ("khaki", "#f0e68c"), ("lavender", "#e6e6fa"),
  ("lavenderblush", "#fff0f5"), ("lawngreen", "#7cfc00"),
  ("lemonchiffon", "#fffacd"), ("lightblue", "#add8e6"),
  ("lightcoral", "#f08080"), ("lightcyan", "#e0ffff"),
  ("lightgoldenrodyellow", "#fafad2"), ("lightgreen", "#90ee90"),
  ("lightgray", "#d3d3d3"), ("lightgrey", "#d3d3d3"), ("lightpink", "#ffb6c1"),
  ("lightsalmon", "#ffa07a"), ("lightseagreen", "#20b2aa"),
  ("lightskyblue", "#87cefa"), ("lightslategray", "#778899"),
  ("lightslategrey", "#778899"), ("lightsteelblue", "#b0c4de"),
  ("lightyellow", "#ffffe0"), ("lime", "#00ff00"), ("limegreen", "#32cd32"),
  ("linen", "#faf0e6"), ("magenta", "#ff00ff"), ("maroon", "#800000"),
  ("mediumaquamarine", "#66cdaa"), ("mediumblue", "#0000cd"),
  ("mediumorchid", "#ba55d3"), ("mediumpurple", "#9370db"),
  ("mediumseagreen", "#3cb371"), ("mediumslateblue", "#7b68ee"),
  ("mediumspringgreen", "#00fa9a"), ("mediumturquoise", "#48d1cc"),
  ("mediumvioletred", "#c71585"), ("midnightblue", "#191970"),
  ("mintcream", "#f5fffa"), ("mistyrose", "#ffe4e1"), ("moccasin", "#ffe4b5"),
  ("navajowhite", "#ffdead"), ("navy", "#000080"), ("oldlace", "#fdf5e6"),
  ("olive", "#808000"), ("olivedrab", "#6b8e23"), ("orange", "#ffa500"),
  ("orangered", "#ff4500"), ("orchid", "#da70d6"),
  ("palegoldenrod", "#eee8aa"), ("palegreen", "#98fb98"),
  ("paleturquoise", "#afeeee"), ("palevioletred", "#db7093"),
  ("papayawhip", "#ffefd5"), ("peachpuff", "#ffdab9"), ("peru", "#cd853f"),
  ("pink", "#ffc0cb"), ("plum", "#dda0dd"), ("powderblue", "#b0e0e6"),
  ("purple", "#800080"), ("rebeccapurple", "#663399"), ("red", "#ff0000"),
  ("rosybrown", "#bc8f8f"), ("royalblue", "#4169e1"),
  ("saddlebrown", "#8b4513"), ("salmon", "#fa8072"), ("sandybrown", "#f4a460"),
  ("seagreen", "#2e8b57"), ("seashell", "#fff5ee"), ("sienna", "#a0522d"),
  ("silver", "#c0c0c0"), ("skyblue", "#87ceeb"), ("slateblue", "#6a5acd"),
  ("slategray", "#708090"), ("slategrey", "#708090"), ("snow", "#fffafa"),
  ("springgreen", "#00ff7f"), ("steelblue", "#4682b4"), ("tan", "#d2b48c"),
  ("teal", "#008080"), ("thistle", "#d8bfd8"), ("tomato", "#ff6347"),
  ("turquoise", "#40e0d0"), ("violet", "#ee82ee"), ("wheat", "#f5deb3"),
  ("white", "#ffffff"), ("whitesmoke", "#f5f5f5"), ("yellow", "#ffff00"),
  ("yellowgreen", "#9acd32")]

/-- Colormap lookup of PIL getrgb.  PIL resolves the stored #rrggbb string by
a recursive getrgb call, which always lands in the six-digit hex branch, so
the lookup composes directly with pilHex here. -/
def pilColormapLookup (c : List Char) : Option (List ℕ) :=
  match pilColormap.find? (fun p => p.1.data == c) with
  | some p => pilHex p.2.data
  | none => none

/-- Translation of PIL.ImageColor.getrgb: lowercase, then try the colormap,
the four anchored hex forms, rgb() with integers (UNCLAMPED, a PIL
behaviour the repository inherits), rgb() with percentages, hsl(), hsv()
and hsb(), and rgba(); otherwise raise (modelled as none). -/
def pilGetrgb (color : String) : Option (List ℕ) :=
  let c := color.data.map pyLowerChar
  match pilColormapLookup c with
  | some v => some v
  | none =>
  match pilHex c with
  | some v => some v
  | none =>
  match pilRgbInts c with
  | some v => some v
  | none =>
  match pilRgbPercent c with
  | some v => some v
  | none =>
  match pilHsl c with
  | some v => some v
  | none =>
  match pilHsv c with
  | some v => some v
  | none => pilRgba c

/-- Translation of try_imagecolor_getrgb (source lines 130-138): call PIL
getrgb, keep the first three components when at least three come back,
turn every exception into a failure (here: none). -/
def try_imagecolor_getrgb (text : String) : Option Rgb :=
  match pilGetrgb text with
  | some (r :: g :: b :: _) => some (r, g, b)
  | _ => none

/-- Hexadecimal digit of either case, the class [0-9a-fA-F] of the module
regexes. -/
def isHexAny (c : Char) : Bool :=
  isDigitC c || ('a' ≤ c && c ≤ 'f') || ('A' ≤ c && c ≤ 'F')

/-- Match of HEX_RE = ^#?[0-9a-fA-F]{6}$ (source line 38). -/
def hexReMatch (l : List Char) : Bool :=
  match l with
  | '#' :: r => r.length = 6 && r.all isHexAny
  | r => r.length = 6 && r.all isHexAny

/-- Match of HEX_SHORT_RE = ^#?([0-9a-fA-F]{3})$ (source line 42), returning
the captured three digits. -/
def hexShortMatch (l : List Char) : Option (Char × Char × Char) :=
  let body := fun (r : List Char) =>
    match r with
    | [a, b, c] => if [a, b, c].all isHexAny then some (a, b, c) else none
    | _ => none
  match l with
  | '#' :: r => body r
  | r => body r

/-- Match of HEX_LONG_RE = ^#?([0-9a-fA-F]{6})$ (source line 43), returning
the captured six digits. -/
def hexLongMatch (l : List Char) : Option (List Char) :=
  let body := fun (r : List Char) =>
    if r.length = 6 ∧ r.all isHexAny then some r else none
  match l with
  | '#' :: r => body r
  | r => body r

/-- Attempted match of rgba?\s*\(\s*([^)]*)\) at the head of the list,
returning the capture group.  The optional a is greedy with backtracking;
the group excludes the whitespace eaten by the greedy \s* after the
parenthesis and runs to the first closing parenthesis, which must exist. -/
def rgbFuncAt (l : List Char) : Option (List Char) :=
  let tryTail := fun (t : List Char) =>
    match skipWs t with
    | '(' :: r2 =>
      let r3 := skipWs r2
      match r3.dropWhile (fun c => c ≠ ')') with
      | ')' :: _ => some (r3.takeWhile (fun c => c ≠ ')'))
      | _ => none
    | _ => none
  match l with
  | 'r' :: 'g' :: 'b' :: rest =>
    match rest with
    | 'a' :: rest2 =>
      match tryTail rest2 with
      | some v => some v
      | none => tryTail rest
    | _ => tryTail rest
  | _ => none

/-- Attempted match of hsla?\s*\(\s*([^)]*)\) at the head of the list. -/
def hslFuncAt (l : List Char) : Option (List Char) :=
  let tryTail := fun (t : List Char) =>
    match skipWs t with
    | '(' :: r2 =>
      let r3 := skipWs r2
      match r3.dropWhile (fun c => c ≠ ')') with
      | ')' :: _ => some (r3.takeWhile (fun c => c ≠ ')'))
      | _ => none
    | _ => none
  match l with
  | 'h' :: 's' :: 'l' :: rest =>
    match rest with
    | 'a' :: rest2 =>
      match tryTail rest2 with
      | some v => some v
      | none => tryTail rest
    | _ => tryTail rest
  | _ => none

/-- Regex search: try the pattern at each successive position and take the
leftmost match. -/
def searchPos (f : List Char → Option (List Char)) : List Char → Option (List Char)
  | [] => f []
  | c :: rest =>
    match f (c :: rest) with
    | some v => some v
    | none => searchPos f rest

/-- RGB_FUNC_RE.search (source line 44). -/
def rgbFuncSearch (l : List Char) : Option (List Char) :=
  searchPos rgbFuncAt l

/-- HSL_FUNC_RE.search (source line 45). -/
def hslFuncSearch (l : List Char) : Option (List Char) :=
  searchPos hslFuncAt l

/-- Python str.split(s, ",") : split at every comma, keeping empty pieces. -/
def splitOnComma : List Char → List (List Char)
  | [] => [[]]
  | ',' :: r => [] :: splitOnComma r
  | c :: r =>
    match splitOnComma r with
    | h :: t => (c :: h) :: t
    | [] => [[c]]

/-- Read one group (\d{1,3}) of PLAIN_RGB_RE: a maximal digit run of length
one to three (a longer run cannot match, because the following regex
element admits no digit, and backtracking inside the run therefore fails). -/
def readNum13 (l : List Char) : Option (ℕ × List Char) :=
  let ds := l.takeWhile isDigitC
  if 1 ≤ ds.length ∧ ds.length ≤ 3 then some (digitsVal ds, l.dropWhile isDigitC)
  else none

/-- Consume one separator \s*[, \s]\s* of PLAIN_RGB_RE: a nonempty run of
whitespace and at most one comma (the unique way the three regex pieces
can cover the non-digit span between two digit groups). -/
def readPlainSep (l : List Char) : Option (List Char) :=
  let l1 := l.dropWhile isPyWs
  match l1 with
  | ',' :: r => some (r.dropWhile isPyWs)
  | _ => if l1.length < l.length then some l1 else none

/-- Match of PLAIN_RGB_RE =
^\s*(\d{1,3})\s*[, \s]\s*(\d{1,3})\s*[, \s]\s*(\d{1,3})\s*$ (source
line 46), returning the three captured integers. -/
def plainRgbMatch (l : List Char) : Option (ℕ × ℕ × ℕ) := do
  let (a, r1) ← readNum13 (skipWs l)
  let r2 ← readPlainSep r1
  let (b, r3) ← readNum13 r2
  let r4 ← readPlainSep r3
  let (c, r5) ← readNum13 r4
  if skipWs r5 = [] then some (a, b, c) else none

/-- Translation of rgb_to_hex (source lines 76-82): round, clamp each
component to [0,255] and format as # plus six uppercase hex digits. -/
def hexUpperDigit (n : ℕ) : Char :=
  if n < 10 then Char.ofNat (48 + n) else Char.ofNat (55 + n)

/-- Two uppercase hex digits of a byte ({:02X}). -/
def hexPairU (n : ℕ) : List Char :=
  [hexUpperDigit (n / 16), hexUpperDigit (n % 16)]

/-- Translation of rgb_to_hex (source lines 76-82).  On natural inputs
int(round(c)) is the identity and max(0, .) is vacuous. -/
def rgb_to_hex (x : Rgb) : String :=
  let r := min x.1 255
  let g := min x.2.1 255
  let b := min x.2.2 255
  ⟨'#' :: (hexPairU r ++ hexPairU g ++ hexPairU b)⟩

/-- The module-level CSS3_NAMES_TO_HEX table in the configuration without
the optional webcolors package: the fallback literal of source lines
22-32, in source order. -/
def CSS3_NAMES_TO_HEX : List (String × String) := [
  ("black", "#000000"), ("white", "#FFFFFF"), ("red", "#FF0000"),
  ("green", "#008000"), ("blue", "#0000FF"), ("yellow", "#FFFF00"),
  ("crimson", "#DC143C"), ("maroon", "#800000"), ("orange", "#FFA500"),
  ("pink", "#FFC0CB"), ("purple", "#800080"), ("violet", "#EE82EE"),
  ("brown", "#A52A2A"), ("gray", "#808080"), ("grey", "#808080"),
  ("silver", "#C0C0C0"), ("gold", "#D4AF37"), ("beige", "#F5F5DC"),
  ("olive", "#808000"), ("lime", "#00FF00"), ("navy", "#000080"),
  ("teal", "#008080"), ("magenta", "#FF00FF"), ("coral", "#FF7F50"),
  ("salmon", "#FA8072"), ("turquoise", "#40E0D0"), ("indigo", "#4B0082"),
  ("burgundy", "#800020")]

/-- KNOWN_NAMES = sorted(CSS3_NAMES_TO_HEX.keys()) (source line 35), written
out in its sorted order. -/
def KNOWN_NAMES : List String := [
  "beige", "black", "blue", "brown", "burgundy", "coral", "crimson",
  "gold", "gray", "green", "grey", "indigo", "lime", "magenta", "maroon",
  "navy", "olive", "orange", "pink", "purple", "red", "salmon", "silver",
  "teal", "turquoise", "violet", "white", "yellow"]

/-- Translation of find_by_css3 (source lines 141-148). -/
def find_by_css3 (name : String) : Option Rgb :=
  if name.data = [] then none
  else
    match CSS3_NAMES_TO_HEX.find? (fun p => p.1 == name) with
    | some p => try_imagecolor_getrgb p.2
    | none => none

/-- Positions of a character in the second sequence, ascending: the b2j map
of difflib.SequenceMatcher (CPython Lib/difflib.py). -/
def positionsIn (b : List Char) (c : Char) : List ℕ :=
  (List.range b.length).filter (fun j => b.getD j ' ' == c)

/-- The b2j lookup including the autojunk heuristic: when b has at least 200
elements, characters occurring more than len(b)//100 + 1 times are
dropped from the map.  isjunk is None throughout this program, so bjunk
is empty. -/
def b2jOf (b : List Char) (c : Char) : List ℕ :=
  if 200 ≤ b.length ∧ b.length / 100 + 1 < b.count c then []
  else positionsIn b c

/-- Dynamic-programming core of SequenceMatcher.find_longest_match: returns
the triple (besti, bestj, bestsize) of the longest junk-free match, with
ties resolved to the earliest start in a, then in b, exactly as the
ascending iteration order of the difflib loops does. -/
def flmDP (a : List Char) (b2j : Char → List ℕ) (alo ahi blo bhi : ℕ) :
    ℕ × ℕ × ℕ :=
  let step := fun (st : List (ℕ × ℕ) × (ℕ × ℕ × ℕ)) (i : ℕ) =>
    let j2len := st.1
    let js := (b2j (a.getD i ' ')).filter (fun j => blo ≤ j && j < bhi)
    js.foldl
      (fun (st2 : List (ℕ × ℕ) × (ℕ × ℕ × ℕ)) j =>
        let k := (if j = 0 then 0 else (j2len.lookup (j - 1)).getD 0) + 1
        let best := st2.2
        let best := if best.2.2 < k then (i + 1 - k, j + 1 - k, k) else best
        ((j, k) :: st2.1, best))
      ([], st.2)
  ((List.range' alo (ahi - alo)).foldl step ([], (alo, blo, 0))).2

/-- Backward extension loop of find_longest_match (the junk variants of the
two extension loops are identities here because bjunk is empty).  The
loop decrements i, so structural recursion on i terminates it; the guard
alo < i is false at i = 0, making the zero case exact. -/
def extendLow (a b : List Char) (alo blo : ℕ) : ℕ → ℕ → ℕ → ℕ × ℕ × ℕ
  | 0, j, k => (0, j, k)
  | i + 1, j, k =>
    if alo < i + 1 ∧ blo < j ∧ a.getD i '?' = b.getD (j - 1) '!' then
      extendLow a b alo blo i (j - 1) (k + 1)
    else (i + 1, j, k)

/-- Forward extension loop of find_longest_match, driven by the fuel
ahi - (i + k), which is exactly the number of steps the loop can still
take (the guard i + k < ahi is false precisely when the fuel is spent). -/
def extendHighF (a b : List Char) (ahi bhi i j : ℕ) : ℕ → ℕ → ℕ × ℕ × ℕ
  | 0, k => (i, j, k)
  | fuel + 1, k =>
    if i + k < ahi ∧ j + k < bhi ∧ a.getD (i + k) '?' = b.getD (j + k) '!' then
      extendHighF a b ahi bhi i j fuel (k + 1)
    else (i, j, k)

/-- Forward extension loop wrapper. -/
def extendHigh (a b : List Char) (ahi bhi i j k : ℕ) : ℕ × ℕ × ℕ :=
  extendHighF a b ahi bhi i j (ahi - (i + k)) k

/-- Translation of SequenceMatcher.find_longest_match for isjunk = None. -/
def find_longest_match (a b : List Char) (b2j : Char → List ℕ)
    (alo ahi blo bhi : ℕ) : ℕ × ℕ × ℕ :=
  let best := flmDP a b2j alo ahi blo bhi
  let best := extendLow a b alo blo best.1 best.2.1 best.2.2
  extendHigh a b ahi bhi best.1 best.2.1 best.2.2

/-- Total size of all matching blocks, the sum that SequenceMatcher.ratio
takes over get_matching_blocks: the recursive split of the block queue,
with a fuel argument bounding the recursion depth (the measure
(ahi-alo)+(bhi-blo) strictly decreases, so the initial fuel below is
never exhausted). -/
def matchSum (a b : List Char) (b2j : Char → List ℕ) :
    ℕ → ℕ → ℕ → ℕ → ℕ → ℕ
  | 0, _, _, _, _ => 0
  | fuel + 1, alo, ahi, blo, bhi =>
    let m := find_longest_match a b b2j alo ahi blo bhi
    if m.2.2 = 0 then 0
    else
      m.2.2 + matchSum a b b2j fuel alo m.1 blo m.2.1 +
        matchSum a b b2j fuel (m.1 + m.2.2) ahi (m.2.1 + m.2.2) bhi

/-- Number of matched elements between the two sequences, as summed by
SequenceMatcher.ratio. -/
def totalMatches (a b : List Char) : ℕ :=
  matchSum a b (b2jOf b) (a.length + b.length + 1) 0 a.length 0 b.length

/-- SequenceMatcher ratio 2M/T as an exact rational (_calculate_ratio, with
the empty-empty case giving 1).  The IEEE double 2.0*M/T is correctly
rounded, and no cutoff comparison in this program sits close enough to a
representable boundary for the rounding to flip it, so the rational value
is a faithful model. -/
def ratioP (a b : List Char) : PyQ :=
  let t := a.length + b.length
  if t = 0 then ⟨1, 1⟩ else ⟨(2 * totalMatches a b : ℕ), t⟩

/-- Python string comparison (lexicographic by code point). -/
def pyStrLt : List Char → List Char → Bool
  | [], [] => false
  | [], _ :: _ => true
  | _ :: _, [] => false
  | x :: xs, y :: ys =>
    if x.toNat < y.toNat then true
    else if y.toNat < x.toNat then false
    else pyStrLt xs ys

/-- Strict descending order on scored names, the tuple order used by
heapq.nlargest on (ratio, name) pairs. -/
def pairGt (p q : PyQ × String) : Bool :=
  if q.1.ltB p.1 then true
  else if p.1.ltB q.1 then false
  else pyStrLt q.2.data p.2.data

/-- Insertion into a descending-sorted list. -/
def insertDesc (p : PyQ × String) : List (PyQ × String) → List (PyQ × String)
  | [] => [p]
  | q :: rest => if pairGt p q then p :: q :: rest else q :: insertDesc p rest

/-- Descending sort; together with take n this is heapq.nlargest (ties in
the full pair cannot occur here because the candidate names are distinct). -/
def sortDesc (l : List (PyQ × String)) : List (PyQ × String) :=
  l.foldr insertDesc []

/-- Translation of difflib.get_close_matches.  The real_quick_ratio and
quick_ratio guards of the original are upper bounds on ratio, so the
conjunction of the three cutoff tests is equivalent to the ratio test
alone; the scores are then moved to the head by nlargest and stripped. -/
def get_close_matches (word : String) (poss : List String) (n : ℕ)
    (cutoff : PyQ) : List String :=
  let scored := poss.filterMap
    (fun x => if cutoff.leB (ratioP x.data word.data)
              then some (ratioP x.data word.data, x) else none)
  ((sortDesc scored).take n).map (fun p => p.2)

/-- Translation of fuzzy_lookup (source lines 151-160): the first close
match possessing a database entry (every KNOWN_NAMES entry does, so this
is the best-scoring match when one clears the cutoff). -/
def fuzzy_lookup (name : String) (n : ℕ) (cutoff : PyQ) : Option Rgb :=
  if KNOWN_NAMES = [] then none
  else (get_close_matches name KNOWN_NAMES n cutoff).findSome? find_by_css3

/-- Fueled worker of pySplit; every iteration consumes at least one
character, so fuel equal to the length suffices and the fuel never runs
out on the wrapper below. -/
def pySplitF : ℕ → List Char → List (List Char)
  | 0, _ => []
  | fuel + 1, l =>
    match l.dropWhile isPyWs with
    | [] => []
    | c :: rest =>
      (c :: rest.takeWhile (fun x => !isPyWs x)) ::
        pySplitF fuel (rest.dropWhile (fun x => !isPyWs x))

/-- Python str.split() with no argument: split on whitespace runs, no empty
pieces. -/
def pySplit (l : List Char) : List (List Char) :=
  pySplitF l.length l

/-- The adjective stop list of text_to_rgb_extended (source line 199). -/
def adjectives : List (List Char) :=
  (["light", "dark", "pale", "deep", "medium", "very", "vivid", "bright"]).map
    String.data

/-- Python " ".join . -/
def joinSpace (ts : List (List Char)) : List Char :=
  List.intercalate [' '] ts

/-- Candidate subphrases tried by text_to_rgb_extended step 4 (source lines
201-214): last token, first token, last-two bigram, first-two bigram, and
the adjective-filtered phrase when new. -/
def buildTries (tokens : List (List Char)) : List (List Char) :=
  let t1 : List (List Char) :=
    match tokens.getLast?, tokens.head? with
    | some lt, some ht => [lt, ht]
    | _, _ => []
  let t2 : List (List Char) :=
    if 2 ≤ tokens.length then
      [joinSpace (tokens.drop (tokens.length - 2)), joinSpace (tokens.take 2)]
    else []
  let base := t1 ++ t2
  let filtered := tokens.filter (fun t => !(adjectives.contains t))
  if filtered ≠ [] ∧ ¬ base.contains (joinSpace filtered) then
    base ++ [joinSpace filtered]
  else base

/-- One candidate of the step-4 loop and of the step-5 token scan: PIL
getrgb first, exact CSS3 lookup second (source lines 217-224, 228-235). -/
def tryCandidate (cand : List Char) : Option Rgb :=
  match try_imagecolor_getrgb ⟨cand⟩ with
  | some v => some v
  | none => find_by_css3 ⟨cand⟩

/-- Component-wise average of step 5 (source lines 239-242): rational mean,
then Python round (half to even). -/
def avgRgb (l : List Rgb) : Rgb :=
  let n := l.length
  ((pyRound ⟨((l.map (fun x => x.1)).sum : ℕ), n⟩).toNat,
   (pyRound ⟨((l.map (fun x => x.2.1)).sum : ℕ), n⟩).toNat,
   (pyRound ⟨((l.map (fun x => x.2.2)).sum : ℕ), n⟩).toNat)

/-- Step 2 of text_to_rgb_extended (source lines 187-191): if the
space-stripped normal form matches HEX_RE, retry getrgb with a forced
leading hash; a failure of the retry falls through like a missing match. -/
def hexRetry (norm : List Char) : Option Rgb :=
  let ns := norm.filter (fun c => c ≠ ' ')
  if hexReMatch ns then
    try_imagecolor_getrgb ⟨'#' :: ns.dropWhile (fun c => c = '#')⟩
  else none

/-- The cutoff 0.55 that text_to_rgb_extended passes to fuzzy_lookup at both
call sites (source lines 245 and 251). -/
def fuzzyCutoff : PyQ := ⟨11, 20⟩

/-- Translation of text_to_rgb_extended (source lines 163-255).  The
strategy chain in source order: direct getrgb on the stripped text, hex
retry on the normal form, exact CSS3 lookup, candidate subphrases,
token-wise resolution with averaging, full-phrase fuzzy lookup,
token-wise fuzzy lookup, and the final raise, whose payload is the
argument this function received (the stripped text when called through
parse_color_input). -/
def text_to_rgb_extended (text : String) : Except ColorErr Rgb :=
  if pyStripL text.data = [] then .error .emptyText else
  let raw : String := ⟨pyStripL text.data⟩
  let norm := normalize_nameL raw.data
  match try_imagecolor_getrgb raw with
  | some v => .ok v
  | none =>
  match hexRetry norm with
  | some v => .ok v
  | none =>
  match find_by_css3 ⟨norm⟩ with
  | some v => .ok v
  | none =>
  let tokens := pySplit norm
  match (buildTries tokens).findSome? tryCandidate with
  | some v => .ok v
  | none =>
  match tokens.filterMap tryCandidate with
  | [v] => .ok v
  | v1 :: v2 :: vs => .ok (avgRgb (v1 :: v2 :: vs))
  | [] =>
  match fuzzy_lookup ⟨norm⟩ 5 fuzzyCutoff with
  | some v => .ok v
  | none =>
  match tokens.findSome? (fun t => fuzzy_lookup ⟨t⟩ 5 fuzzyCutoff) with
  | some v => .ok v
  | none => .error (.unrecognized text)

/-- Step 2 of parse_color_input: a HEX_SHORT_RE match duplicates each nibble
and retries getrgb; both a missing match and a failing retry continue to
the next step (the except: pass of lines 282-284). -/
def shortHexStep (s : List Char) : Option Rgb :=
  match hexShortMatch s with
  | some (a, b, c) => try_imagecolor_getrgb ⟨['#', a, a, b, b, c, c]⟩
  | none => none

/-- Step 3 of parse_color_input: a HEX_LONG_RE match retries getrgb with a
forced hash. -/
def longHexStep (s : List Char) : Option Rgb :=
  match hexLongMatch s with
  | some ds => try_imagecolor_getrgb ⟨'#' :: ds⟩
  | none => none

/-- Python str.endswith("deg"). -/
def endsWithDeg (l : List Char) : Bool :=
  match l.reverse with
  | 'g' :: 'e' :: 'd' :: _ => true
  | _ => false

/-- Python s.replace(".", "", 1): remove the first dot. -/
def removeFirstDot : List Char → List Char
  | [] => []
  | '.' :: r => r
  | c :: r => c :: removeFirstDot r

/-- Python str.isdigit restricted to ASCII: nonempty and all digits. -/
def isDigitStr (l : List Char) : Bool :=
  !l.isEmpty && l.all isDigitC

/-- Translation of hsl_to_rgb_tuple (source lines 70-73): colorsys
hls_to_rgb on (h/360, l, s), each output scaled by 255 and clamped. -/
def hsl_to_rgb_tuple (h s l : PyQ) : Rgb :=
  let rgb := hls_to_rgb (h.divNat 360) l s
  (clamp255 (rgb.1.mul (PyQ.ofNat 255)), clamp255 (rgb.2.1.mul (PyQ.ofNat 255)),
   clamp255 (rgb.2.2.mul (PyQ.ofNat 255)))

/-- The hue component parse of the hsl branch (source lines 313-315):
rstrip + lower, then float of the deg-stripped text when it ends in deg
or its dot-free form is all digits, else float of the raw text. -/
def parseHslHue (p0 : List Char) : Except ColorErr PyQ :=
  let hraw := (dropTrailing isPyWs p0).map pyLowerChar
  let src := if endsWithDeg hraw ∨ isDigitStr (removeFirstDot hraw) = true
             then pyRstripSet (['d', 'e', 'g']) hraw else hraw
  match pyFloat src with
  | some q => .ok q
  | none => .error (.badFloat ⟨hraw⟩)

/-- The saturation/lightness parse of the hsl branch (source lines 316-319):
percent suffix divides by 100. -/
def parseHslComp (p : List Char) : Except ColorErr PyQ :=
  let c := pyStripL p
  if c.getLast? = some '%' then
    match pyFloat (pyRstripSet (['%']) c) with
    | some q => .ok (q.divNat 100)
    | none => .error (.badFloat ⟨c⟩)
  else
    match pyFloat c with
    | some q => .ok q
    | none => .error (.badFloat ⟨c⟩)

/-- Translation of parse_color_input (source lines 260-334), parameterised
by the optional fallback exactly like the Python signature.  Step order:
direct getrgb, short hex, long hex, rgb()/rgba() with clamping numeric
tokens, hsl()/hsla(), plain triple, fallback, final raise. -/
def parse_color_input (text : String)
    (fb : Option (String → Except ColorErr Rgb)) : Except ColorErr Rgb :=
  if pyStripL text.data = [] then .error .emptyInput else
  let s : String := ⟨pyStripL text.data⟩
  match try_imagecolor_getrgb s with
  | some v => .ok v
  | none =>
  match shortHexStep s.data with
  | some v => .ok v
  | none =>
  match longHexStep s.data with
  | some v => .ok v
  | none =>
  match rgbFuncSearch s.data with
  | some inner =>
    match (splitOnComma inner).map pyStripL with
    | p0 :: p1 :: p2 :: _ => do
      let r ← parse_numeric_token ⟨p0⟩
      let g ← parse_numeric_token ⟨p1⟩
      let b ← parse_numeric_token ⟨p2⟩
      .ok (r, g, b)
    | _ => .error .rgbNeeds3
  | none =>
  match hslFuncSearch s.data with
  | some inner =>
    match (splitOnComma inner).map pyStripL with
    | p0 :: p1 :: p2 :: _ => do
      let h ← parseHslHue p0
      let sv ← parseHslComp p1
      let lv ← parseHslComp p2
      .ok (hsl_to_rgb_tuple h sv lv)
    | _ => .error .hslNeeds3
  | none =>
  match plainRgbMatch s.data with
  | some (a, b, c) =>
    .ok (clamp255 (PyQ.ofNat a), clamp255 (PyQ.ofNat b), clamp255 (PyQ.ofNat c))
  | none =>
  match fb with
  | some f => f s
  | none => .error (.unrecognizedFormat text)

/-- The text entry point as the application uses it (routes at source lines
435 and 474): parse_color_input with text_to_rgb_extended as fallback. -/
def resolveText (text : String) : Except ColorErr Rgb :=
  parse_color_input text (some text_to_rgb_extended)

/-- Exact pixel histogram in first-encounter order, as Image.getcolors
builds it over the sampled buffer. -/
def histInsert (h : List (ℕ × Rgb)) (p : Rgb) : List (ℕ × Rgb) :=
  if h.any (fun e => e.2 == p) then
    h.map (fun e => if e.2 == p then (e.1 + 1, e.2) else e)
  else h ++ [(1, p)]

/-- Histogram of a pixel list. -/
def histogram (pixels : List Rgb) : List (ℕ × Rgb) :=
  pixels.foldl histInsert []

/-- Translation of Image.getcolors(maxcolors): None when the number of
distinct colors exceeds maxcolors. -/
def getcolors (pixels : List Rgb) (maxcolors : ℕ) : Option (List (ℕ × Rgb)) :=
  let h := histogram pixels
  if maxcolors < h.length then none else some h

/-- Python max(list, key=lambda t: t[0]) shape: first element of maximal
first component (max keeps the earlier element on ties). -/
def pyMaxByFst {α : Type} : List (ℕ × α) → Option (ℕ × α)
  | [] => none
  | x :: xs => some (xs.foldl (fun cur y => if cur.1 < y.1 then y else cur) x)

/-- Translation of image_dominant_rgb (source lines 102-127) over the
sampled pixel buffer.  Decoding, alpha compositing and bilinear
downsampling are PIL internals; the model receives their output: the
w×h buffer of RGB pixels.  The 16-color adaptive quantization of the
fallback branch is likewise abstracted by the oracle arguments
quantCounts (the (count, palette index) list of pal.getcolors()) and
palette (the flat palette list); the theorems show the fallback cannot
be reached on a nonempty buffer, whatever the oracle returns. -/
def image_dominant_rgb (pixels : List Rgb) (w h : ℕ)
    (quantCounts : List (ℕ × ℕ)) (palette : List ℕ) : Option Rgb :=
  let maxcolors := w * h + 1
  match getcolors pixels maxcolors with
  | some (c :: cs) => (pyMaxByFst (c :: cs)).map (fun e => e.2)
  | _ =>
    match pyMaxByFst quantCounts with
    | none => none
    | some di =>
      match palette.get? (di.2 * 3), palette.get? (di.2 * 3 + 1),
            palette.get? (di.2 * 3 + 2) with
      | some r, some g, some b => some (r, g, b)
      | _, _, _ => none

/-- The normalized form of the stripped input, as computed inside the
fallback when parse_color_input hands it the stripped text. -/
def normOf (text : String) : List Char :=
  normalize_nameL (pyStripL text.data)

/-- Failure of every strategy that runs before the fuzzy stage, phrased as
one equality per strategy of the embedded pipeline. -/
def preFuzzyFail (text : String) : Prop :=
  try_imagecolor_getrgb ⟨pyStripL text.data⟩ = none ∧
  shortHexStep (pyStripL text.data) = none ∧
  longHexStep (pyStripL text.data) = none ∧
  rgbFuncSearch (pyStripL text.data) = none ∧
  hslFuncSearch (pyStripL text.data) = none ∧
  plainRgbMatch (pyStripL text.data) = none ∧
  hexRetry (normOf text) = none ∧
  find_by_css3 ⟨normOf text⟩ = none ∧
  (buildTries (pySplit (normOf text))).findSome? tryCandidate = none ∧
  (pySplit (normOf text)).filterMap tryCandidate = []

/-- Failure of every resolution strategy, the exhaustion premise of the
final raise. -/
def allStrategiesFail (text : String) : Prop :=
  preFuzzyFail text ∧
  fuzzy_lookup ⟨normOf text⟩ 5 fuzzyCutoff = none ∧
  (pySplit (normOf text)).findSome? (fun t => fuzzy_lookup ⟨t⟩ 5 fuzzyCutoff) = none

/-- The failure predicates are decidable, so witnesses can check them by
decide. -/
instance (text : String) : Decidable (preFuzzyFail text) := by
  unfold preFuzzyFail
  infer_instance

/-- Decidability of full-strategy failure. -/
instance (text : String) : Decidable (allStrategiesFail text) := by
  unfold allStrategiesFail
  infer_instance

/-- Shape of one capture group (\d{1,3}) of PLAIN_RGB_RE: one to three
digits. -/
def DigitRun13 (l : List Char) : Prop :=
  l ≠ [] ∧ l.length ≤ 3 ∧ ∀ c ∈ l, isDigitC c = true

/-- Shape of the separator \s*[, \s]\s* of PLAIN_RGB_RE: either a nonempty
whitespace run, or a single comma with optional whitespace around it. -/
def PySepStr (l : List Char) : Prop :=
  (l ≠ [] ∧ ∀ c ∈ l, isPyWs c = true) ∨
  (∃ w1 w2, (∀ c ∈ w1, isPyWs c = true) ∧ (∀ c ∈ w2, isPyWs c = true) ∧
    l = w1 ++ ',' :: w2)

/-- Absence of two adjacent characters satisfying p, the shape left behind
by collapseRuns. -/
def NoAdj (p : Char → Bool) : List Char → Prop
  | [] => True
  | [_] => True
  | a :: b :: r => ¬(p a = true ∧ p b = true) ∧ NoAdj p (b :: r)

/-- Characters that survive the normalizer with their identity: the kept
class minus the dash and whitespace subclasses that later substitutions
rewrite. -/
def solidC (c : Char) : Bool :=
  isNormKept c && !isDashU c && !isPyWs c

/-!
Theorems.  Each claim of the specification is settled by exactly one
theorem named after it below; shared helper lemmas precede them.
-/

/-- C2: the claim that every successful text resolution yields components in
[0,255] is broken by the code: PIL getrgb parses rgb() integer notation
without clamping, and parse_color_input returns that result untouched, so
rgb(300,0,0) resolves to the out-of-range triple (300,0,0). -/
theorem c2_unclamped_rgb_passthrough :
    resolveText ("rgb(300,0,0)") = .ok (300, 0, 0) ∧ ¬(300 ≤ 255) :=
  ⟨by decide, by decide⟩

/-- C7: the three-digit hex text f0a, with or without a leading hash,
resolves by nibble duplication to (255,0,170), whose canonical hex form
is the uppercase string FF00AA prefixed with a hash. -/
theorem c7_short_hex :
    resolveText ("f0a") = .ok (255, 0, 170) ∧
    resolveText ("#f0a") = .ok (255, 0, 170) ∧
    rgb_to_hex (255, 0, 170) = "#FF00AA" :=
  ⟨by decide, by decide, by decide⟩

/-- C4 counterexample: "red yellow" does not resolve to the average of red
and yellow.  The code returns yellow itself, (255,255,0), while the
component-wise integer-rounded mean of red (255,0,0) and yellow
(255,255,0) — computed by the very averaging routine of the code — is
(255,128,0). -/
theorem c4_not_average :
    resolveText ("red yellow") = .ok (255, 255, 0) ∧
    avgRgb [(255, 0, 0), (255, 255, 0)] = (255, 128, 0) ∧
    ((255, 255, 0) : Rgb) ≠ ((255, 128, 0) : Rgb) :=
  ⟨by decide, by decide, by decide⟩

/-- C4 amended: "red yellow" resolves to the RGB of "yellow" (255,255,0),
because the last-token candidate of phrase reduction is tried — and
succeeds through PIL getrgb — before multi-token averaging is ever
reached: "yellow" is the first entry of the candidate list built for the
phrase. -/
theorem c4_last_token_wins :
    resolveText ("red yellow") = .ok (255, 255, 0) ∧
    try_imagecolor_getrgb ("yellow") = some (255, 255, 0) ∧
    (buildTries (pySplit (normalize_name ("red yellow")).data)).head? =
      some (("yellow").data) :=
  ⟨by decide, by decide, by decide⟩

/-- C5 counterexample: the full-phrase fuzzy stage accepts below similarity
0.6.  For the input below, resolution succeeds with turquoise although
every database key has similarity strictly below 3/5 to the phrase, and
even every key-token similarity is below the relaxed 11/20 cutoff — so
under the claimed cutoffs (0.6 full phrase, then 0.55 per token) this
input would have been rejected entirely. -/
theorem c5_accepts_below_point_six :
    resolveText ("tur quoxxxxx") = .ok (64, 224, 208) ∧
    find_by_css3 ("turquoise") = some (64, 224, 208) ∧
    (KNOWN_NAMES.all
      (fun k => (ratioP k.data ("tur quoxxxxx").data).ltB ⟨3, 5⟩)) = true ∧
    ((pySplit ("tur quoxxxxx").data).all
      (fun t => KNOWN_NAMES.all
        (fun k => (ratioP k.data t).ltB ⟨11, 20⟩))) = true :=
  ⟨by decide, by decide, by decide, by decide⟩

/-- C6 counterexample: a plain triple containing a negative integer is not
clamped but rejected: PLAIN_RGB_RE has no sign, so "1, 2, -3" matches no
structured parser and every name strategy fails, ending in the
unrecognized-color error instead of the claimed clamped success
(1, 2, 0). -/
theorem c6_negative_rejected :
    resolveText ("1, 2, -3") = .error (.unrecognized ("1, 2, -3")) ∧
    resolveText ("1, 2, -3") ≠ .ok (1, 2, 0) :=
  ⟨by decide, by decide⟩

/-- C8 counterexample: the exhaustion error does not carry the original
input verbatim.  parse_color_input strips the text before handing it to
the fallback, whose final raise interpolates its own (stripped) argument:
for the padded input below the payload is the stripped text, not the
original. -/
theorem c8_payload_stripped :
    resolveText (" zzzqqq123 ") = .error (.unrecognized ("zzzqqq123")) ∧
    ("zzzqqq123" : String) ≠ (" zzzqqq123 " : String) :=
  ⟨by decide, by decide⟩

/-- C10 counterexample: normalize_name is not idempotent.  Punctuation is
replaced by a space after the initial strip, so normalize_name can emit a
trailing space that a second application removes: on the input with a
trailing exclamation mark the two applications differ. -/
theorem c10_not_idempotent :
    normalize_name (normalize_name ("a!")) ≠ normalize_name ("a!") := by
  decide

/-- Every clamp255 result is at most 255, whatever rational comes in. -/
theorem clamp255_le_255 (v : PyQ) : clamp255 v ≤ 255 := by
  simp only [clamp255]
  split
  · exact Nat.zero_le _
  · split
    · exact Nat.le_refl _
    · rename_i h1 h2
      omega

/-- C3: rgb(300,-10,128) resolves to the clamped triple (255,0,128) — the
out-of-range components are clamped, not rejected — an rgb() form with
fewer than three comma-separated components is a terminal error, and
every successful numeric-token parse is clamped to at most 255. -/
theorem c3_rgb_clamping :
    resolveText ("rgb(300,-10,128)") = .ok (255, 0, 128) ∧
    resolveText ("rgb(300,-10)") = .error .rgbNeeds3 ∧
    ∀ (tok : String) (v : ℕ), parse_numeric_token tok = .ok v → v ≤ 255 := by
  refine ⟨by decide, by decide, ?_⟩
  intro tok v h
  simp only [parse_numeric_token] at h
  split at h
  · cases h
    exact clamp255_le_255 _
  · split at h
    · cases h
      exact clamp255_le_255 _
    · split at h
      · cases h
        exact clamp255_le_255 _
      · cases h

/-- C3 witness: parse_numeric_token on the token 300 succeeds with the
clamped value 255, which the clamping bound of the theorem covers. -/
theorem c3_rgb_clamping_witness : (255 : ℕ) ≤ 255 :=
  c3_rgb_clamping.2.2 ("300") 255 (by decide)

/-- Inserting a pixel grows the histogram by at most one entry. -/
theorem histInsert_length_le (acc : List (ℕ × Rgb)) (p : Rgb) :
    (histInsert acc p).length ≤ acc.length + 1 := by
  unfold histInsert
  split
  · simp
  · simp

/-- Inserting a pixel never shrinks the histogram. -/
theorem le_histInsert_length (acc : List (ℕ × Rgb)) (p : Rgb) :
    acc.length ≤ (histInsert acc p).length := by
  unfold histInsert
  split
  · simp
  · simp

/-- A histogram fold adds at most one entry per pixel. -/
theorem foldl_histInsert_length_le (l : List Rgb) :
    ∀ acc : List (ℕ × Rgb), (l.foldl histInsert acc).length ≤ acc.length + l.length := by
  induction l with
  | nil => intro acc; simp
  | cons p rest ih =>
    intro acc
    calc (List.foldl histInsert (histInsert acc p) rest).length
        ≤ (histInsert acc p).length + rest.length := ih _
      _ ≤ (acc.length + 1) + rest.length :=
          Nat.add_le_add_right (histInsert_length_le acc p) _
      _ = acc.length + (p :: rest).length := by simp [Nat.add_comm, Nat.add_assoc, Nat.add_left_comm]

/-- A histogram fold never loses entries. -/
theorem le_foldl_histInsert_length (l : List Rgb) :
    ∀ acc : List (ℕ × Rgb), acc.length ≤ (l.foldl histInsert acc).length := by
  induction l with
  | nil => intro acc; simp
  | cons p rest ih =>
    intro acc
    exact Nat.le_trans (le_histInsert_length acc p) (ih (histInsert acc p))

/-- The histogram has at most one entry per pixel. -/
theorem histogram_length_le (pixels : List Rgb) :
    (histogram pixels).length ≤ pixels.length := by
  have h := foldl_histInsert_length_le pixels []
  simpa [histogram] using h

/-- The histogram of a nonempty buffer is nonempty. -/
theorem histogram_ne_nil (p : Rgb) (rest : List Rgb) :
    histogram (p :: rest) ≠ [] := by
  have h : (histInsert [] p).length ≤ (List.foldl histInsert (histInsert [] p) rest).length :=
    le_foldl_histInsert_length rest _
  have h2 : (histInsert [] p).length = 1 := by simp [histInsert]
  intro hn
  have h3 : histogram (p :: rest) = List.foldl histInsert (histInsert [] p) rest := by
    simp [histogram]
  rw [h3] at hn
  rw [hn] at h
  simp [h2] at h

/-- C9: on every successfully decoded image — modelled by the sampled w×h
pixel buffer the PIL decode/composite/resize pipeline hands to the
histogram step — dominant-color extraction returns the most frequent
histogram entry and never fails: the exact histogram of w*h pixels can
neither be empty nor exceed the cap of w*h+1 distinct entries, so the
16-color adaptive-palette fallback (abstracted by the oracle arguments,
over which the result is quantified) is never consulted. -/
theorem c9_extractor_total (w h : ℕ) (pixels : List Rgb)
    (qc : List (ℕ × ℕ)) (pal : List ℕ)
    (hlen : pixels.length = w * h) (hne : pixels ≠ []) :
    image_dominant_rgb pixels w h qc pal =
      (pyMaxByFst (histogram pixels)).map (fun e => e.2) ∧
    ∃ c, image_dominant_rgb pixels w h qc pal = some c := by
  have h1 : (histogram pixels).length ≤ pixels.length := histogram_length_le pixels
  have hg : getcolors pixels (w * h + 1) = some (histogram pixels) := by
    simp only [getcolors]
    rw [if_neg]
    omega
  obtain ⟨p0, prest, hp⟩ : ∃ p0 prest, pixels = p0 :: prest := by
    cases pixels with
    | nil => exact absurd rfl hne
    | cons a l => exact ⟨a, l, rfl⟩
  have h2 : histogram pixels ≠ [] := by
    rw [hp]; exact histogram_ne_nil p0 prest
  obtain ⟨c0, cs, hc⟩ : ∃ c0 cs, histogram pixels = c0 :: cs := by
    cases hh : histogram pixels with
    | nil => exact absurd hh h2
    | cons a l => exact ⟨a, l, rfl⟩
  have hmain : image_dominant_rgb pixels w h qc pal =
      (pyMaxByFst (histogram pixels)).map (fun e => e.2) := by
    simp only [image_dominant_rgb]
    rw [hg, hc]
  refine ⟨hmain, ?_⟩
  rw [hmain, hc]
  exact ⟨_, rfl⟩

/-- C9 witness: a one-pixel sample extracts that pixel, with the fallback
oracles empty. -/
theorem c9_extractor_total_witness :
    image_dominant_rgb [(3, 4, 5)] 1 1 [] [] =
      (pyMaxByFst (histogram [(3, 4, 5)])).map (fun e => e.2) ∧
    ∃ c, image_dominant_rgb [(3, 4, 5)] 1 1 [] [] = some c :=
  c9_extractor_total 1 1 [(3, 4, 5)] [] [] (by decide) (by decide)

/-- Characters of a collapsed list: each is the replacement character or an
original character outside the collapsed class. -/
theorem mem_collapseRunsAux (p : Char → Bool) (rep : Char) :
    ∀ (l : List Char) (b : Bool) (c : Char),
    c ∈ collapseRunsAux p rep b l → c = rep ∨ (c ∈ l ∧ p c = false) := by
  intro l
  induction l with
  | nil => intro b c h; simp [collapseRunsAux] at h
  | cons x rest ih =>
    intro b c h
    unfold collapseRunsAux at h
    cases hx : p x with
    | true =>
      simp only [hx, if_true] at h
      cases b with
      | true =>
        simp only [if_true, List.nil_append] at h
        rcases ih true c h with h1 | ⟨h2, h3⟩
        · exact Or.inl h1
        · exact Or.inr ⟨List.mem_cons_of_mem _ h2, h3⟩
      | false =>
        simp only [Bool.false_eq_true, if_false, List.singleton_append,
          List.mem_cons] at h
        rcases h with h1 | h1
        · exact Or.inl h1
        · rcases ih true c h1 with h2 | ⟨h3, h4⟩
          · exact Or.inl h2
          · exact Or.inr ⟨List.mem_cons_of_mem _ h3, h4⟩
    | false =>
      simp only [hx, Bool.false_eq_true, if_false, List.mem_cons] at h
      rcases h with h1 | h1
      · subst h1; exact Or.inr ⟨List.mem_cons_self _ _, hx⟩
      · rcases ih false c h1 with h2 | ⟨h3, h4⟩
        · exact Or.inl h2
        · exact Or.inr ⟨List.mem_cons_of_mem _ h3, h4⟩

/-- With the run flag set, the collapsed output never starts inside the
class: its head fails p. -/
theorem collapseRunsAux_true_head (p : Char → Bool) (rep : Char) :
    ∀ (l : List Char) (c : Char) (rest : List Char),
    collapseRunsAux p rep true l = c :: rest → p c = false := by
  intro l
  induction l with
  | nil => intro c rest h; simp [collapseRunsAux] at h
  | cons x xs ih =>
    intro c rest h
    unfold collapseRunsAux at h
    cases hx : p x with
    | true =>
      simp only [hx, if_true, if_true, List.nil_append] at h
      exact ih c rest h
    | false =>
      simp only [hx, Bool.false_eq_true, if_false, List.cons.injEq] at h
      rw [← h.1]
      exact hx

/-- NoAdj drops the head. -/
theorem noAdj_of_cons {p : Char → Bool} {x : Char} {l : List Char}
    (h : NoAdj p (x :: l)) : NoAdj p l := by
  cases l with
  | nil => trivial
  | cons y ys => exact h.2

/-- NoAdj introduction from a head condition and the tail. -/
theorem noAdj_cons {p : Char → Bool} {x : Char} {l : List Char}
    (hl : NoAdj p l)
    (hx : ∀ y ys, l = y :: ys → ¬(p x = true ∧ p y = true)) :
    NoAdj p (x :: l) := by
  cases l with
  | nil => trivial
  | cons y ys => exact ⟨hx y ys rfl, hl⟩

/-- NoAdj restricts to the right part of an append. -/
theorem noAdj_append_right {p : Char → Bool} :
    ∀ {xs ys : List Char}, NoAdj p (xs ++ ys) → NoAdj p ys := by
  intro xs
  induction xs with
  | nil => intro ys h; exact h
  | cons x rest ih => intro ys h; exact ih (noAdj_of_cons h)

/-- NoAdj restricts to the left part of an append. -/
theorem noAdj_append_left {p : Char → Bool} :
    ∀ {xs ys : List Char}, NoAdj p (xs ++ ys) → NoAdj p xs := by
  intro xs
  induction xs with
  | nil => intro ys h; trivial
  | cons x rest ih =>
    intro ys h
    cases rest with
    | nil => trivial
    | cons x2 rest2 =>
      exact ⟨h.1, ih (noAdj_of_cons h)⟩

/-- Collapsed output has no two adjacent class characters. -/
theorem noAdj_collapseRunsAux (p : Char → Bool) (rep : Char) :
    ∀ (l : List Char) (b : Bool), NoAdj p (collapseRunsAux p rep b l) := by
  intro l
  induction l with
  | nil => intro b; trivial
  | cons x xs ih =>
    intro b
    unfold collapseRunsAux
    cases hx : p x with
    | true =>
      simp only [hx, if_true]
      cases b with
      | true => simpa using ih true
      | false =>
        simp only [Bool.false_eq_true, if_false, List.singleton_append]
        refine noAdj_cons (ih true) ?_
        intro y ys hy hpy
        rw [collapseRunsAux_true_head p rep xs y ys hy] at hpy
        exact Bool.noConfusion hpy.2
    | false =>
      simp only [hx, Bool.false_eq_true, if_false]
      refine noAdj_cons (ih false) ?_
      intro y ys hy hpy
      rw [hx] at hpy
      exact Bool.noConfusion hpy.1

/-- Collapsing is the identity on class-free lists. -/
theorem collapseRunsAux_id_of_not (p : Char → Bool) (rep : Char) :
    ∀ (l : List Char) (b : Bool), (∀ c ∈ l, p c = false) →
    collapseRunsAux p rep b l = l := by
  intro l
  induction l with
  | nil => intro b _; rfl
  | cons x xs ih =>
    intro b h
    unfold collapseRunsAux
    simp only [h x (List.mem_cons_self _ _), Bool.false_eq_true, if_false]
    rw [ih false (fun c hc => h c (List.mem_cons_of_mem _ hc))]

/-- Collapsing is the identity when every class character already equals the
replacement and no two class characters are adjacent (with the flag
clear, or the head outside the class when it is set). -/
theorem collapseRunsAux_id_of_normal (p : Char → Bool) (rep : Char) :
    ∀ (l : List Char) (b : Bool),
    (∀ c ∈ l, p c = true → c = rep) → NoAdj p l →
    (b = true → ∀ c rest, l = c :: rest → p c = false) →
    collapseRunsAux p rep b l = l := by
  intro l
  induction l with
  | nil => intro b _ _ _; rfl
  | cons x xs ih =>
    intro b hmem hadj hb
    unfold collapseRunsAux
    cases hx : p x with
    | true =>
      cases b with
      | true =>
        exact absurd hx (by rw [hb rfl x xs rfl]; exact Bool.noConfusion)
      | false =>
        simp only [hx, if_true, Bool.false_eq_true, if_false,
          List.singleton_append]
        have hxrep : x = rep := hmem x (List.mem_cons_self _ _) hx
        rw [ih true (fun c hc hpc => hmem c (List.mem_cons_of_mem _ hc) hpc)
              (noAdj_of_cons hadj) ?_]
        · rw [hxrep]
        · intro _ c rest hxs
          rw [hxs] at hadj
          cases hpc : p c with
          | true => exact absurd ⟨hx, hpc⟩ hadj.1
          | false => rfl
    | false =>
      simp only [hx, Bool.false_eq_true, if_false]
      rw [ih false (fun c hc hpc => hmem c (List.mem_cons_of_mem _ hc) hpc)
            (noAdj_of_cons hadj) (fun hf => Bool.noConfusion hf)]

/-- Stripping decomposes the list into whitespace margins around the core. -/
theorem pyStripL_decomp (l : List Char) :
    ∃ w1 w2, (∀ c ∈ w1, isPyWs c = true) ∧ (∀ c ∈ w2, isPyWs c = true) ∧
      l = w1 ++ pyStripL l ++ w2 := by
  refine ⟨l.takeWhile isPyWs,
          ((l.dropWhile isPyWs).reverse.takeWhile isPyWs).reverse, ?_, ?_, ?_⟩
  · intro c hc; exact List.mem_takeWhile_imp hc
  · intro c hc
    rw [List.mem_reverse] at hc
    exact List.mem_takeWhile_imp hc
  · have h2 : l.dropWhile isPyWs =
        pyStripL l ++ ((l.dropWhile isPyWs).reverse.takeWhile isPyWs).reverse := by
      unfold pyStripL dropTrailing
      calc l.dropWhile isPyWs
          = ((l.dropWhile isPyWs).reverse).reverse := (List.reverse_reverse _).symm
        _ = (((l.dropWhile isPyWs).reverse.takeWhile isPyWs) ++
              ((l.dropWhile isPyWs).reverse.dropWhile isPyWs)).reverse := by
            rw [List.takeWhile_append_dropWhile]
        _ = ((l.dropWhile isPyWs).reverse.dropWhile isPyWs).reverse ++
              ((l.dropWhile isPyWs).reverse.takeWhile isPyWs).reverse := by
            rw [List.reverse_append]
    calc l = l.takeWhile isPyWs ++ l.dropWhile isPyWs :=
          (List.takeWhile_append_dropWhile _ _).symm
      _ = l.takeWhile isPyWs ++
            (pyStripL l ++ ((l.dropWhile isPyWs).reverse.takeWhile isPyWs).reverse) := by
          rw [← h2]
      _ = l.takeWhile isPyWs ++ pyStripL l ++
            ((l.dropWhile isPyWs).reverse.takeWhile isPyWs).reverse := by
          rw [List.append_assoc]

/-- Strip keeps only original characters. -/
theorem mem_of_mem_pyStripL {l : List Char} {c : Char}
    (h : c ∈ pyStripL l) : c ∈ l := by
  obtain ⟨w1, w2, -, -, hl⟩ := pyStripL_decomp l
  rw [hl]
  simp only [List.mem_append]
  exact Or.inl (Or.inr h)

/-- Strip preserves the no-adjacent-class shape. -/
theorem noAdj_pyStripL {p : Char → Bool} {l : List Char}
    (h : NoAdj p l) : NoAdj p (pyStripL l) := by
  obtain ⟨w1, w2, -, -, hl⟩ := pyStripL_decomp l
  rw [hl, List.append_assoc] at h
  exact noAdj_append_left (noAdj_append_right (p := p) h)

/-- The solid characters divide into five concrete classes. -/
theorem solid_cases (c : Char) (h : solidC c = true) :
    isLowerAZ c = true ∨ isDigitC c = true ∨
    c = '#' ∨ c = '(' ∨ c = ')' ∨ c = ',' := by
  simp only [solidC, Bool.and_eq_true, Bool.not_eq_true'] at h
  obtain ⟨⟨hk, hd⟩, hw⟩ := h
  simp only [isNormKept, Bool.or_eq_true, beq_iff_eq] at hk
  rcases hk with (((((((h1 | h1) | h1) | h1) | h1) | h1) | h1) | h1)
  · exact Or.inl h1
  · exact Or.inr (Or.inl h1)
  · exact Or.inr (Or.inr (Or.inl h1))
  · exact Or.inr (Or.inr (Or.inr (Or.inl h1)))
  · exact Or.inr (Or.inr (Or.inr (Or.inr (Or.inl h1))))
  · exact Or.inr (Or.inr (Or.inr (Or.inr (Or.inr h1))))
  · rw [h1] at hw; exact Bool.noConfusion hw
  · rw [h1] at hd
    exact Bool.noConfusion hd

/-- No solid character, and not the space, lies in the uppercase range that
lowercasing would move. -/
theorem not_upper_of_solid_or_space (c : Char)
    (h : solidC c = true ∨ c = ' ') : ¬('A' ≤ c ∧ c ≤ 'Z') := by
  rintro ⟨hA, hZ⟩
  rcases h with hs | hsp
  · rcases solid_cases c hs with h1 | h1 | h1 | h1 | h1 | h1
    · simp only [isLowerAZ, Bool.and_eq_true, decide_eq_true_eq] at h1
      have hbad : ('a' : Char) ≤ 'Z' := le_trans h1.1 hZ
      exact absurd hbad (by decide)
    · simp only [isDigitC, Bool.and_eq_true, decide_eq_true_eq] at h1
      have hbad : ('A' : Char) ≤ '9' := le_trans hA h1.2
      exact absurd hbad (by decide)
    · rw [h1] at hA; exact absurd hA (by decide)
    · rw [h1] at hA; exact absurd hA (by decide)
    · rw [h1] at hA; exact absurd hA (by decide)
    · rw [h1] at hA; exact absurd hA (by decide)
  · rw [hsp] at hA
    exact absurd hA (by decide)

/-- Lowercasing fixes every character the normalizer can output. -/
theorem pyLowerChar_fix (c : Char) (h : solidC c = true ∨ c = ' ') :
    pyLowerChar c = c := by
  unfold pyLowerChar
  rw [if_neg (not_upper_of_solid_or_space c h)]

/-- Mapping a function that fixes every member is the identity. -/
theorem map_id_of_mem {f : Char → Char} :
    ∀ l : List Char, (∀ c ∈ l, f c = c) → l.map f = l := by
  intro l
  induction l with
  | nil => intro _; rfl
  | cons x xs ih =>
    intro h
    simp only [List.map_cons, h x (List.mem_cons_self _ _),
      ih (fun c hc => h c (List.mem_cons_of_mem _ hc))]

/-- Tab, newline and carriage return are whitespace. -/
theorem isPyWs_of_isTNR (c : Char) (h : isTNR c = true) : isPyWs c = true := by
  simp only [isTNR, Bool.or_eq_true, beq_iff_eq] at h
  rcases h with ((h1 | h1) | h1) <;> rw [h1] <;> decide

/-- Every character of a normal form is solid or the single space. -/
theorem mem_norm_solid_or_space (t : List Char) :
    ∀ c ∈ normalize_nameL t, solidC c = true ∨ c = ' ' := by
  intro c hc
  unfold normalize_nameL at hc
  by_cases ht : t = []
  · rw [if_pos ht] at hc; simp at hc
  rw [if_neg ht] at hc
  rcases mem_collapseRunsAux _ _ _ _ _ hc with h1 | ⟨h2, hws⟩
  · exact Or.inr h1
  rcases mem_collapseRunsAux _ _ _ _ _ h2 with h3 | ⟨h4, hdash⟩
  · rw [h3] at hws
    exact absurd hws (by decide)
  rcases List.mem_map.mp h4 with ⟨d, -, hd⟩
  by_cases hk : isNormKept d = true
  · rw [if_pos hk] at hd
    subst hd
    left
    simp [solidC, hk, hdash, hws]
  · rw [if_neg hk] at hd
    rw [← hd] at hws
    exact absurd hws (by decide)

/-- A normal form has no two adjacent whitespace characters. -/
theorem noAdj_norm (t : List Char) : NoAdj isPyWs (normalize_nameL t) := by
  unfold normalize_nameL
  by_cases ht : t = []
  · rw [if_pos ht]; trivial
  · rw [if_neg ht]
    exact noAdj_collapseRunsAux _ _ _ _

/-- The normalizer fixes its own output up to stripping: on a list whose
characters are solid or isolated single spaces, every pipeline stage but
the strip is the identity. -/
theorem normalize_fix (l : List Char)
    (hm : ∀ c ∈ l, solidC c = true ∨ c = ' ')
    (hadj : NoAdj isPyWs l) : normalize_nameL l = pyStripL l := by
  by_cases hl : l = []
  · subst hl; rfl
  unfold normalize_nameL
  rw [if_neg hl]
  have hmap : l.map pyLowerChar = l :=
    map_id_of_mem l (fun c hc => pyLowerChar_fix c (hm c hc))
  show collapseRuns isPyWs ' '
      (collapseRuns isDashU ' '
        ((collapseRuns isTNR ' ' (pyStripL (l.map pyLowerChar))).map
          (fun c => if isNormKept c then c else ' '))) = pyStripL l
  rw [hmap]
  have hmem_m : ∀ c ∈ pyStripL l, solidC c = true ∨ c = ' ' :=
    fun c hc => hm c (mem_of_mem_pyStripL hc)
  have hadj_m : NoAdj isPyWs (pyStripL l) := noAdj_pyStripL hadj
  have h2 : collapseRuns isTNR ' ' (pyStripL l) = pyStripL l := by
    refine collapseRunsAux_id_of_not _ _ _ false ?_
    intro c hc
    rcases hmem_m c hc with hs | hsp
    · cases htnr : isTNR c with
      | true =>
        have hw := isPyWs_of_isTNR c htnr
        simp only [solidC, Bool.and_eq_true, Bool.not_eq_true'] at hs
        rw [hs.2] at hw
        exact Bool.noConfusion hw
      | false => rfl
    · rw [hsp]; decide
  rw [h2]
  have h3 : (pyStripL l).map (fun c => if isNormKept c then c else ' ') = pyStripL l := by
    refine map_id_of_mem _ ?_
    intro c hc
    rcases hmem_m c hc with hs | hsp
    · have hk : isNormKept c = true := by
        simp only [solidC, Bool.and_eq_true] at hs
        exact hs.1.1
      rw [if_pos hk]
    · rw [hsp]; decide
  rw [h3]
  have h4 : collapseRuns isDashU ' ' (pyStripL l) = pyStripL l := by
    refine collapseRunsAux_id_of_not _ _ _ false ?_
    intro c hc
    rcases hmem_m c hc with hs | hsp
    · simp only [solidC, Bool.and_eq_true, Bool.not_eq_true'] at hs
      exact hs.1.2
    · rw [hsp]; decide
  rw [h4]
  refine collapseRunsAux_id_of_normal _ _ _ false ?_ hadj_m
    (fun hf => Bool.noConfusion hf)
  intro c hc hws
  rcases hmem_m c hc with hs | hsp
  · simp only [solidC, Bool.and_eq_true, Bool.not_eq_true'] at hs
    rw [hs.2] at hws
    exact Bool.noConfusion hws
  · exact hsp

/-- C10 amended: the normalizer is idempotent up to edge whitespace — a
second application of normalize_name equals a Python strip of the first
application, so it differs from the first output exactly by the leading
or trailing space that punctuation replacement can leave behind. -/
theorem c10_idempotent_up_to_strip (t : String) :
    normalize_name (normalize_name t) = pyStrip (normalize_name t) := by
  unfold normalize_name pyStrip
  show (⟨normalize_nameL (normalize_nameL t.data)⟩ : String) =
    ⟨pyStripL (normalize_nameL t.data)⟩
  rw [normalize_fix (normalize_nameL t.data)
        (mem_norm_solid_or_space t.data) (noAdj_norm t.data)]

/-- Dropping a trailing class is the identity when the last character is
outside the class. -/
theorem dropTrailing_id (p : Char → Bool) (l : List Char)
    (h : ∀ c, l.getLast? = some c → p c = false) : dropTrailing p l = l := by
  cases hr : l.reverse with
  | nil =>
    have : l = [] := by
      rw [← List.reverse_reverse l, hr]
      rfl
    subst this
    rfl
  | cons x xs =>
    have hx : p x = false := by
      apply h
      rw [← List.head?_reverse, hr]
      rfl
    unfold dropTrailing
    rw [hr, List.dropWhile_cons_of_neg (by rw [hx]; exact Bool.noConfusion),
        ← hr, List.reverse_reverse]

/-- Stripping is the identity when neither end is whitespace. -/
theorem pyStripL_id (l : List Char)
    (hh : ∀ c, l.head? = some c → isPyWs c = false)
    (hl : ∀ c, l.getLast? = some c → isPyWs c = false) : pyStripL l = l := by
  cases l with
  | nil => rfl
  | cons x xs =>
    have hx : isPyWs x = false := hh x rfl
    unfold pyStripL
    rw [List.dropWhile_cons_of_neg (by rw [hx]; exact Bool.noConfusion)]
    exact dropTrailing_id _ _ hl

/-- Stripping is idempotent. -/
theorem pyStripL_idem (l : List Char) : pyStripL (pyStripL l) = pyStripL l := by
  cases hm : pyStripL l with
  | nil => rfl
  | cons c rest =>
    refine pyStripL_id _ ?_ ?_
    · intro d hd
      -- the stripped core is a prefix of the dropWhile result, so its head
      -- is the dropWhile head, which fails the class
      have h1 := List.head?_dropWhile_not isPyWs l
      have hdec : l.dropWhile isPyWs =
          pyStripL l ++ ((l.dropWhile isPyWs).reverse.takeWhile isPyWs).reverse := by
        unfold pyStripL dropTrailing
        calc l.dropWhile isPyWs
            = ((l.dropWhile isPyWs).reverse).reverse := (List.reverse_reverse _).symm
          _ = (((l.dropWhile isPyWs).reverse.takeWhile isPyWs) ++
                ((l.dropWhile isPyWs).reverse.dropWhile isPyWs)).reverse := by
              rw [List.takeWhile_append_dropWhile]
          _ = ((l.dropWhile isPyWs).reverse.dropWhile isPyWs).reverse ++
                ((l.dropWhile isPyWs).reverse.takeWhile isPyWs).reverse := by
              rw [List.reverse_append]
      rw [hdec, hm] at h1
      cases hd
      simpa using h1
    · intro d hd
      rw [← hm] at hd
      unfold pyStripL dropTrailing at hd
      rw [List.getLast?_reverse] at hd
      have h1 := List.head?_dropWhile_not isPyWs (l.dropWhile isPyWs).reverse
      rw [hd] at h1
      exact h1

/-- Facts about the sixteen hex digit characters: none is whitespace, each
lowercases to a lowercase hex digit, and the digit value round-trips. -/
theorem hexDigit_facts : ∀ d, d < 16 →
    isPyWs (hexUpperDigit d) = false ∧
    isHexLower (pyLowerChar (hexUpperDigit d)) = true ∧
    hexValL (pyLowerChar (hexUpperDigit d)) = d := by decide

/-- PIL getrgb on a hash followed by six uppercase hex digits: the colormap
cannot match (no key starts with the hash), the six-digit hex branch
fires, and the digit pairs reassemble into the byte values. -/
theorem try_getrgb_hash6 (x1 x2 x3 x4 x5 x6 : ℕ)
    (h1 : x1 < 16) (h2 : x2 < 16) (h3 : x3 < 16)
    (h4 : x4 < 16) (h5 : x5 < 16) (h6 : x6 < 16) :
    try_imagecolor_getrgb ⟨['#', hexUpperDigit x1, hexUpperDigit x2,
        hexUpperDigit x3, hexUpperDigit x4, hexUpperDigit x5,
        hexUpperDigit x6]⟩ =
      some (16 * x1 + x2, 16 * x3 + x4, 16 * x5 + x6) := by
  have f1 := hexDigit_facts x1 h1
  have f2 := hexDigit_facts x2 h2
  have f3 := hexDigit_facts x3 h3
  have f4 := hexDigit_facts x4 h4
  have f5 := hexDigit_facts x5 h5
  have f6 := hexDigit_facts x6 h6
  have hcm : pilColormapLookup (['#', hexUpperDigit x1, hexUpperDigit x2,
      hexUpperDigit x3, hexUpperDigit x4, hexUpperDigit x5,
      hexUpperDigit x6].map pyLowerChar) = none := rfl
  have hall : ([pyLowerChar (hexUpperDigit x1), pyLowerChar (hexUpperDigit x2),
      pyLowerChar (hexUpperDigit x3), pyLowerChar (hexUpperDigit x4),
      pyLowerChar (hexUpperDigit x5),
      pyLowerChar (hexUpperDigit x6)].all isHexLower) = true := by
    simp [List.all_cons, f1.2.1, f2.2.1, f3.2.1, f4.2.1, f5.2.1, f6.2.1]
  have hhex : pilHex ('#' :: [pyLowerChar (hexUpperDigit x1),
      pyLowerChar (hexUpperDigit x2), pyLowerChar (hexUpperDigit x3),
      pyLowerChar (hexUpperDigit x4), pyLowerChar (hexUpperDigit x5),
      pyLowerChar (hexUpperDigit x6)]) =
      some [16 * x1 + x2, 16 * x3 + x4, 16 * x5 + x6] := by
    simp only [pilHex]
    rw [if_pos hall]
    show some [hexPairV (pyLowerChar (hexUpperDigit x1))
        (pyLowerChar (hexUpperDigit x2)), _, _] = _
    unfold hexPairV
    rw [f1.2.2, f2.2.2, f3.2.2, f4.2.2, f5.2.2, f6.2.2]
  have hmap : (⟨['#', hexUpperDigit x1, hexUpperDigit x2, hexUpperDigit x3,
      hexUpperDigit x4, hexUpperDigit x5, hexUpperDigit x6]⟩ : String).data.map
        pyLowerChar =
      '#' :: [pyLowerChar (hexUpperDigit x1), pyLowerChar (hexUpperDigit x2),
        pyLowerChar (hexUpperDigit x3), pyLowerChar (hexUpperDigit x4),
        pyLowerChar (hexUpperDigit x5), pyLowerChar (hexUpperDigit x6)] := rfl
  simp only [try_imagecolor_getrgb, pilGetrgb, hmap]
  rw [show pilColormapLookup ('#' :: [pyLowerChar (hexUpperDigit x1),
      pyLowerChar (hexUpperDigit x2), pyLowerChar (hexUpperDigit x3),
      pyLowerChar (hexUpperDigit x4), pyLowerChar (hexUpperDigit x5),
      pyLowerChar (hexUpperDigit x6)]) = none from rfl]
  rw [hhex]

/-- C1: formatting any in-range triple with rgb_to_hex and re-parsing the
result through the text resolver returns exactly the original triple: the
canonical hash plus six uppercase hex digits survives stripping, misses
the color name table, and is decoded by the six-digit hex branch of the
direct PIL parse, the first strategy of parse_color_input. -/
theorem c1_format_parse_roundtrip (r g b : ℕ)
    (hr : r ≤ 255) (hg : g ≤ 255) (hb : b ≤ 255) :
    resolveText (rgb_to_hex (r, g, b)) = .ok (r, g, b) := by
  have hstr : rgb_to_hex (r, g, b) = ⟨['#', hexUpperDigit (r / 16),
      hexUpperDigit (r % 16), hexUpperDigit (g / 16), hexUpperDigit (g % 16),
      hexUpperDigit (b / 16), hexUpperDigit (b % 16)]⟩ := by
    simp [rgb_to_hex, hexPairU, Nat.min_eq_left hr, Nat.min_eq_left hg,
      Nat.min_eq_left hb]
  have hlast : isPyWs (hexUpperDigit (b % 16)) = false :=
    (hexDigit_facts (b % 16) (by omega)).1
  have hstrip : pyStripL ['#', hexUpperDigit (r / 16), hexUpperDigit (r % 16),
      hexUpperDigit (g / 16), hexUpperDigit (g % 16), hexUpperDigit (b / 16),
      hexUpperDigit (b % 16)] = ['#', hexUpperDigit (r / 16),
      hexUpperDigit (r % 16), hexUpperDigit (g / 16), hexUpperDigit (g % 16),
      hexUpperDigit (b / 16), hexUpperDigit (b % 16)] := by
    refine pyStripL_id _ ?_ ?_
    · intro c hc
      cases hc
      decide
    · intro c hc
      cases hc
      exact hlast
  have hget := try_getrgb_hash6 (r / 16) (r % 16) (g / 16) (g % 16)
    (b / 16) (b % 16) (by omega) (by omega) (by omega) (by omega)
    (by omega) (by omega)
  have hvals : (16 * (r / 16) + r % 16, 16 * (g / 16) + g % 16,
      16 * (b / 16) + b % 16) = ((r, g, b) : Rgb) := by
    have e1 : 16 * (r / 16) + r % 16 = r := by omega
    have e2 : 16 * (g / 16) + g % 16 = g := by omega
    have e3 : 16 * (b / 16) + b % 16 = b := by omega
    rw [e1, e2, e3]
  rw [hstr]
  unfold resolveText parse_color_input
  rw [show (⟨['#', hexUpperDigit (r / 16), hexUpperDigit (r % 16),
      hexUpperDigit (g / 16), hexUpperDigit (g % 16), hexUpperDigit (b / 16),
      hexUpperDigit (b % 16)]⟩ : String).data = ['#', hexUpperDigit (r / 16),
      hexUpperDigit (r % 16), hexUpperDigit (g / 16), hexUpperDigit (g % 16),
      hexUpperDigit (b / 16), hexUpperDigit (b % 16)] from rfl]
  rw [hstrip]
  rw [if_neg (by exact fun hf => List.noConfusion hf)]
  dsimp only
  rw [hget, hvals]

/-- C1 witness: the roundtrip at the concrete triple (12, 34, 250). -/
theorem c1_format_parse_roundtrip_witness :
    resolveText (rgb_to_hex (12, 34, 250)) = .ok (12, 34, 250) :=
  c1_format_parse_roundtrip 12 34 250 (by decide) (by decide) (by decide)

/-- C8 amended: when every strategy fails, text resolution raises the
unrecognized-color error, and its payload is the input text stripped of
leading and trailing whitespace — not the verbatim original:
parse_color_input strips the text before handing it to the fallback, and
the final raise of text_to_rgb_extended interpolates that stripped
argument. -/
theorem c8_exhaustion_payload (text : String)
    (hne : pyStripL text.data ≠ [])
    (hfail : allStrategiesFail text) :
    resolveText text = .error (.unrecognized (pyStrip text)) := by
  obtain ⟨⟨g1, g2, g3, g4, g5, g6, g7, g8, g9, g10⟩, g11, g12⟩ := hfail
  simp only [normOf] at g7 g8 g9 g10 g11 g12
  simp only [resolveText, parse_color_input, text_to_rgb_extended, pyStrip,
    pyStripL_idem, if_neg hne, g1, g2, g3, g4, g5, g6, g7, g8, g9, g10,
    g11, g12]

/-- C8 witness: the padded unrecognised input exercises the amended theorem;
every strategy fails on it and the payload comes out stripped. -/
theorem c8_exhaustion_payload_witness :
    resolveText (" zzzqqq123 ") =
      .error (.unrecognized (pyStrip (" zzzqqq123 "))) :=
  c8_exhaustion_payload (" zzzqqq123 ") (by decide) (by decide)

/-- Python string comparison is irreflexive. -/
theorem pyStrLt_irrefl : ∀ l : List Char, pyStrLt l l = false := by
  intro l
  induction l with
  | nil => rfl
  | cons x xs ih =>
    unfold pyStrLt
    rw [if_neg (lt_irrefl x.toNat), if_neg (lt_irrefl x.toNat)]
    exact ih

/-- Python string comparison is transitive. -/
theorem pyStrLt_trans : ∀ a b c : List Char,
    pyStrLt a b = true → pyStrLt b c = true → pyStrLt a c = true := by
  intro a
  induction a with
  | nil =>
    intro b c hab hbc
    cases b with
    | nil => exact absurd hab (by simp [pyStrLt])
    | cons y ys =>
      cases c with
      | nil => exact absurd hbc (by simp [pyStrLt])
      | cons z zs => rfl
  | cons x xs ih =>
    intro b c hab hbc
    cases b with
    | nil => exact absurd hab (by simp [pyStrLt])
    | cons y ys =>
      cases c with
      | nil => exact absurd hbc (by simp [pyStrLt])
      | cons z zs =>
        unfold pyStrLt at hab hbc ⊢
        rcases Nat.lt_trichotomy x.toNat y.toNat with hxy | hxy | hxy
        · rcases Nat.lt_trichotomy y.toNat z.toNat with hyz | hyz | hyz
          · rw [if_pos (Nat.lt_trans hxy hyz)]
          · rw [if_pos (hyz ▸ hxy)]
          · rw [if_neg (by omega), if_pos hyz] at hbc
            exact absurd hbc (by simp)
        · rw [if_neg (by omega), if_neg (by omega)] at hab
          rcases Nat.lt_trichotomy y.toNat z.toNat with hyz | hyz | hyz
          · rw [if_pos (by omega)]
          · rw [if_neg (by omega), if_neg (by omega)] at hbc
            rw [if_neg (by omega), if_neg (by omega)]
            exact ih ys zs hab hbc
          · rw [if_neg (by omega), if_pos (by omega)] at hbc
            exact absurd hbc (by simp)
        · rw [if_neg (by omega), if_pos (by omega)] at hab
          exact absurd hab (by simp)

/-- The nlargest pair order is irreflexive. -/
theorem pairGt_irrefl (p : PyQ × String) : pairGt p p = false := by
  unfold pairGt
  rw [if_neg, if_neg]
  · exact pyStrLt_irrefl _
  · unfold PyQ.ltB
    simp
  · unfold PyQ.ltB
    simp

/-- Cross-multiplied strict comparison is transitive over positive
denominators. -/
theorem ltB_trans {a b c : PyQ} (ha : 0 < a.den) (hb : 0 < b.den)
    (hc : 0 < c.den)
    (h1 : a.ltB b = true) (h2 : b.ltB c = true) : a.ltB c = true := by
  unfold PyQ.ltB at h1 h2 ⊢
  simp only [decide_eq_true_eq] at h1 h2 ⊢
  have haz : (0 : ℤ) < (a.den : ℤ) := by exact_mod_cast ha
  have hbz : (0 : ℤ) < (b.den : ℤ) := by exact_mod_cast hb
  have hcz : (0 : ℤ) < (c.den : ℤ) := by exact_mod_cast hc
  nlinarith [mul_lt_mul_of_pos_right h1 hcz, mul_lt_mul_of_pos_right h2 haz]

/-- The nlargest pair order is transitive over positive denominators (the
score comparisons are cross-multiplications, the tie-break is the string
order). -/
theorem pairGt_trans {p q r : PyQ × String} (hp : 0 < p.1.den)
    (hq : 0 < q.1.den) (hr : 0 < r.1.den)
    (h1 : pairGt p q = true) (h2 : pairGt q r = true) : pairGt p r = true := by
  have hpz : (0 : ℤ) < (p.1.den : ℤ) := by exact_mod_cast hp
  have hqz : (0 : ℤ) < (q.1.den : ℤ) := by exact_mod_cast hq
  have hrz : (0 : ℤ) < (r.1.den : ℤ) := by exact_mod_cast hr
  unfold pairGt PyQ.ltB at h1 h2 ⊢
  simp only [decide_eq_true_eq] at h1 h2 ⊢
  by_cases hqp : q.1.num * p.1.den < p.1.num * q.1.den
  · by_cases hrq : r.1.num * q.1.den < q.1.num * r.1.den
    · have hgoal : r.1.num * p.1.den < p.1.num * r.1.den := by
        nlinarith [mul_lt_mul_of_pos_right hqp hrz,
          mul_lt_mul_of_pos_right hrq hpz]
      rw [if_pos hgoal]
    · rw [if_neg hrq] at h2
      by_cases hqr : q.1.num * r.1.den < r.1.num * q.1.den
      · rw [if_pos hqr] at h2
        exact absurd h2 (by simp)
      · have heq : r.1.num * q.1.den = q.1.num * r.1.den := by omega
        have heq2 : r.1.num * q.1.den * p.1.den = q.1.num * r.1.den * p.1.den := by
          rw [heq]
        have hgoal : r.1.num * p.1.den < p.1.num * r.1.den := by
          nlinarith [mul_lt_mul_of_pos_right hqp hrz, heq2]
        rw [if_pos hgoal]
  · rw [if_neg hqp] at h1
    by_cases hpq : p.1.num * q.1.den < q.1.num * p.1.den
    · rw [if_pos hpq] at h1
      exact absurd h1 (by simp)
    · rw [if_neg hpq] at h1
      have heqpq : q.1.num * p.1.den = p.1.num * q.1.den := by omega
      have heqpq2 : q.1.num * p.1.den * r.1.den = p.1.num * q.1.den * r.1.den := by
        rw [heqpq]
      by_cases hrq : r.1.num * q.1.den < q.1.num * r.1.den
      · have hgoal : r.1.num * p.1.den < p.1.num * r.1.den := by
          nlinarith [mul_lt_mul_of_pos_right hrq hpz, heqpq2]
        rw [if_pos hgoal]
      · rw [if_neg hrq] at h2
        by_cases hqr : q.1.num * r.1.den < r.1.num * q.1.den
        · rw [if_pos hqr] at h2
          exact absurd h2 (by simp)
        · rw [if_neg hqr] at h2
          have heqqr : r.1.num * q.1.den = q.1.num * r.1.den := by omega
          have heqqr2 : r.1.num * q.1.den * p.1.den = q.1.num * r.1.den * p.1.den := by
            rw [heqqr]
          have heqrp : r.1.num * p.1.den = p.1.num * r.1.den := by
            nlinarith [heqqr2, heqpq2]
          rw [if_neg (by omega), if_neg (by omega)]
          exact pyStrLt_trans _ _ _ h2 h1

/-- Membership through insertion. -/
theorem mem_insertDesc {p y : PyQ × String} :
    ∀ l, y ∈ insertDesc p l ↔ (y = p ∨ y ∈ l) := by
  intro l
  induction l with
  | nil => simp [insertDesc]
  | cons q rest ih =>
    unfold insertDesc
    by_cases hg : pairGt p q = true
    · rw [if_pos hg]
      simp [List.mem_cons]
    · rw [if_neg hg]
      simp only [List.mem_cons, ih]
      tauto

/-- Sorting preserves membership. -/
theorem mem_sortDesc {y : PyQ × String} :
    ∀ l, y ∈ sortDesc l ↔ y ∈ l := by
  intro l
  induction l with
  | nil => simp [sortDesc]
  | cons a rest ih =>
    show y ∈ insertDesc a (sortDesc rest) ↔ _
    rw [mem_insertDesc, ih]
    simp

/-- The head of the descending insertion sort is a member no other element
strictly beats: the nlargest maximum. -/
theorem sortDesc_head_max :
    ∀ (l : List (PyQ × String)), (∀ e ∈ l, 0 < e.1.den) →
    ∀ x xs, sortDesc l = x :: xs →
    x ∈ l ∧ ∀ y ∈ l, pairGt y x = false := by
  intro l
  induction l with
  | nil => intro _ x xs h; exact absurd h (by simp [sortDesc])
  | cons a rest ih =>
    intro hpos x xs h
    have hstep : sortDesc (a :: rest) = insertDesc a (sortDesc rest) := rfl
    rw [hstep] at h
    cases hs : sortDesc rest with
    | nil =>
      rw [hs] at h
      unfold insertDesc at h
      cases h
      refine ⟨List.mem_cons_self _ _, ?_⟩
      intro y hy
      rcases List.mem_cons.mp hy with hy1 | hy2
      · rw [hy1]; exact pairGt_irrefl _
      · have : y ∈ sortDesc rest := (mem_sortDesc rest).mpr hy2
        rw [hs] at this
        simp at this
    | cons hd tl =>
      rw [hs] at h
      have hhd_mem : hd ∈ rest := (mem_sortDesc rest).mp (by rw [hs]; exact List.mem_cons_self _ _)
      have ihh := ih (fun e he => hpos e (List.mem_cons_of_mem _ he)) hd tl hs
      unfold insertDesc at h
      by_cases hg : pairGt a hd = true
      · rw [if_pos hg] at h
        cases h
        refine ⟨List.mem_cons_self _ _, ?_⟩
        intro y hy
        rcases List.mem_cons.mp hy with hy1 | hy2
        · rw [hy1]; exact pairGt_irrefl _
        · cases hya : pairGt y a with
          | false => rfl
          | true =>
            have hyhd : pairGt y hd = true :=
              pairGt_trans (hpos y (List.mem_cons_of_mem _ hy2))
                (hpos a (List.mem_cons_self _ _))
                (hpos hd (List.mem_cons_of_mem _ hhd_mem)) hya hg
            rw [ihh.2 y hy2] at hyhd
            exact Bool.noConfusion hyhd
      · rw [if_neg hg] at h
        have hx : hd = x := by injection h
        subst hx
        refine ⟨List.mem_cons_of_mem _ ihh.1, ?_⟩
        intro y hy
        rcases List.mem_cons.mp hy with hy1 | hy2
        · rw [hy1]
          exact Bool.eq_false_iff.mpr hg
        · exact ihh.2 y hy2

/-- Ratio scores always carry a positive denominator. -/
theorem ratioP_den_pos (a b : List Char) : 0 < (ratioP a b).den := by
  simp only [ratioP]
  split
  · exact Nat.one_pos
  · rename_i h
    simpa using Nat.pos_of_ne_zero h

/-- C5 amended: both fuzzy stages run at cutoff 0.55 (11/20), not 0.6 for
the full phrase.  A successful full-phrase lookup returns the database
entry of a best match: a key that clears the 0.55 cutoff and that no
other cutoff-clearing key beats in the nlargest order (higher ratio, ties
to the lexicographically larger name).  Only when the full-phrase lookup
fails does resolution fall to the per-token lookup, returning the first
token that has a match; a full-phrase match decides the result by
itself. -/
theorem c5_fuzzy_cutoffs :
    fuzzyCutoff = (⟨11, 20⟩ : PyQ) ∧
    (∀ (name : String) (r : Rgb), fuzzy_lookup name 5 fuzzyCutoff = some r →
      ∃ k, k ∈ KNOWN_NAMES ∧
        fuzzyCutoff.leB (ratioP k.data name.data) = true ∧
        find_by_css3 k = some r ∧
        ∀ k2 ∈ KNOWN_NAMES,
          fuzzyCutoff.leB (ratioP k2.data name.data) = true →
          pairGt (ratioP k2.data name.data, k2)
            (ratioP k.data name.data, k) = false) ∧
    (∀ (text : String) (r : Rgb), pyStripL text.data ≠ [] →
      preFuzzyFail text →
      fuzzy_lookup ⟨normOf text⟩ 5 fuzzyCutoff = some r →
      resolveText text = .ok r) ∧
    (∀ (text : String) (r : Rgb), pyStripL text.data ≠ [] →
      preFuzzyFail text →
      fuzzy_lookup ⟨normOf text⟩ 5 fuzzyCutoff = none →
      (pySplit (normOf text)).findSome?
        (fun t => fuzzy_lookup ⟨t⟩ 5 fuzzyCutoff) = some r →
      resolveText text = .ok r) := by
  refine ⟨rfl, ?_, ?_, ?_⟩
  · intro name r h
    unfold fuzzy_lookup at h
    rw [if_neg (by decide : ¬(KNOWN_NAMES = []))] at h
    simp only [get_close_matches] at h
    have hpos : ∀ e ∈ KNOWN_NAMES.filterMap
        (fun x => if fuzzyCutoff.leB (ratioP x.data name.data) = true
                  then some (ratioP x.data name.data, x) else none),
        0 < e.1.den := by
      intro e he
      rcases List.mem_filterMap.mp he with ⟨k2, -, hk2⟩
      split at hk2
      · cases hk2
        exact ratioP_den_pos _ _
      · exact Option.noConfusion hk2
    cases hs : sortDesc (KNOWN_NAMES.filterMap
        (fun x => if fuzzyCutoff.leB (ratioP x.data name.data) = true
                  then some (ratioP x.data name.data, x) else none)) with
    | nil =>
      rw [hs] at h
      simp at h
    | cons x xs =>
      rw [hs] at h
      have hmax := sortDesc_head_max _ hpos x xs hs
      rcases List.mem_filterMap.mp hmax.1 with ⟨k, hkmem, hkeq⟩
      have hcut : fuzzyCutoff.leB (ratioP k.data name.data) = true := by
        by_contra hc
        rw [if_neg hc] at hkeq
        exact Option.noConfusion hkeq
      rw [if_pos hcut] at hkeq
      have hx : x = (ratioP k.data name.data, k) := by
        cases hkeq
        rfl
      have hcss : (find_by_css3 k).isSome = true := by
        have hall : (KNOWN_NAMES.all (fun n => (find_by_css3 n).isSome)) = true := by
          decide
        exact List.all_eq_true.mp hall k hkmem
      rcases Option.isSome_iff_exists.mp hcss with ⟨v, hv⟩
      have hfs : (List.take 5 (x :: xs)).map (fun p => p.2) =
          k :: (xs.take 4).map (fun p => p.2) := by
        rw [hx]
        rfl
      rw [hfs] at h
      rw [List.findSome?_cons] at h
      rw [hv] at h
      cases h
      refine ⟨k, hkmem, hcut, hv, ?_⟩
      intro k2 hk2mem hk2cut
      have hk2in : (ratioP k2.data name.data, k2) ∈ KNOWN_NAMES.filterMap
          (fun x => if fuzzyCutoff.leB (ratioP x.data name.data) = true
                    then some (ratioP x.data name.data, x) else none) := by
        refine List.mem_filterMap.mpr ⟨k2, hk2mem, ?_⟩
        rw [if_pos hk2cut]
      have := hmax.2 _ hk2in
      rw [hx] at this
      exact this
  · intro text r h1 hfail hfz
    obtain ⟨g1, g2, g3, g4, g5, g6, g7, g8, g9, g10⟩ := hfail
    simp only [normOf] at g7 g8 g9 g10 hfz
    simp only [resolveText, parse_color_input, text_to_rgb_extended,
      pyStripL_idem, if_neg h1, g1, g2, g3, g4, g5, g6, g7, g8, g9, g10, hfz]
  · intro text r h1 hfail hfz htok
    obtain ⟨g1, g2, g3, g4, g5, g6, g7, g8, g9, g10⟩ := hfail
    simp only [normOf] at g7 g8 g9 g10 hfz htok
    simp only [resolveText, parse_color_input, text_to_rgb_extended,
      pyStripL_idem, if_neg h1, g1, g2, g3, g4, g5, g6, g7, g8, g9, g10,
      hfz, htok]

/-- C5 witness: the misspelling turquose fails every pre-fuzzy strategy and
is resolved by the full-phrase fuzzy stage at cutoff 0.55. -/
theorem c5_fuzzy_cutoffs_witness :
    resolveText ("turquose") = .ok (64, 224, 208) :=
  c5_fuzzy_cutoffs.2.2.1 ("turquose") (64, 224, 208) (by decide) (by decide)
    (by decide)

/-- The Python whitespace class is exactly six concrete characters. -/
theorem ws_char_cases {c : Char} (h : isPyWs c = true) :
    c = ' ' ∨ c = Char.ofNat 9 ∨ c = Char.ofNat 10 ∨ c = Char.ofNat 13 ∨
    c = Char.ofNat 11 ∨ c = Char.ofNat 12 := by
  simp only [isPyWs, Bool.or_eq_true, beq_iff_eq] at h
  tauto

/-- No whitespace character is a decimal digit. -/
theorem ws_char_not_digit {c : Char} (h : isPyWs c = true) :
    isDigitC c = false := by
  rcases ws_char_cases h with h1 | h1 | h1 | h1 | h1 | h1 <;> subst h1 <;> decide

/-- No whitespace character is a hexadecimal digit. -/
theorem ws_char_not_hex {c : Char} (h : isPyWs c = true) :
    isHexAny c = false := by
  rcases ws_char_cases h with h1 | h1 | h1 | h1 | h1 | h1 <;> subst h1 <;> decide

/-- No whitespace character is the letter r or h. -/
theorem ws_char_ne_rh {c : Char} (h : isPyWs c = true) :
    c ≠ 'r' ∧ c ≠ 'h' := by
  rcases ws_char_cases h with h1 | h1 | h1 | h1 | h1 | h1 <;> subst h1 <;>
    exact ⟨by decide, by decide⟩

/-- The character bounds encoded by isDigitC. -/
theorem digit_char_bounds {c : Char} (h : isDigitC c = true) :
    '0' ≤ c ∧ c ≤ '9' := by
  simpa only [isDigitC, Bool.and_eq_true, decide_eq_true_eq] using h

/-- A digit is not whitespace. -/
theorem digit_char_not_ws {c : Char} (h : isDigitC c = true) :
    isPyWs c = false := by
  cases hw : isPyWs c with
  | false => rfl
  | true =>
    rw [ws_char_not_digit hw] at h
    exact Bool.noConfusion h

/-- A digit is none of the anchor characters of the structured matchers. -/
theorem digit_char_ne {c : Char} (h : isDigitC c = true) :
    c ≠ '#' ∧ c ≠ 'r' ∧ c ≠ 'h' ∧ c ≠ ',' := by
  refine ⟨?_, ?_, ?_, ?_⟩ <;> intro he <;> subst he <;> exact absurd h (by decide)

/-- A digit is not a lowercase letter. -/
theorem digit_char_not_lower {c : Char} (h : isDigitC c = true) :
    isLowerAZ c = false := by
  cases hl : isLowerAZ c with
  | false => rfl
  | true =>
    have h1 : 'a' ≤ c := by
      simp only [isLowerAZ, Bool.and_eq_true, decide_eq_true_eq] at hl
      exact hl.1
    exact absurd (le_trans h1 (digit_char_bounds h).2) (by decide)

/-- ASCII lowercasing fixes every digit. -/
theorem pyLowerChar_digit {c : Char} (h : isDigitC c = true) :
    pyLowerChar c = c := by
  unfold pyLowerChar
  rw [if_neg]
  rintro ⟨h1, _⟩
  exact absurd (le_trans h1 (digit_char_bounds h).2) (by decide)

/-- takeWhile and dropWhile across an append whose left part satisfies the
predicate throughout and whose right part starts with a failing character. -/
theorem span_append_exact (p : Char → Bool) :
    ∀ d rest : List Char, (∀ c ∈ d, p c = true) →
    (∀ c r2, rest = c :: r2 → p c = false) →
    (d ++ rest).takeWhile p = d ∧ (d ++ rest).dropWhile p = rest := by
  intro d
  induction d with
  | nil =>
    intro rest _ hr
    cases rest with
    | nil => exact ⟨rfl, rfl⟩
    | cons c r2 =>
      have hc := hr c r2 rfl
      constructor
      · simp [List.takeWhile_cons, hc]
      · simp [List.dropWhile_cons, hc]
  | cons a d ih =>
    intro rest hd hr
    have ha : p a = true := hd a (List.mem_cons_self a d)
    have hrec := ih rest (fun c hc => hd c (List.mem_cons_of_mem a hc)) hr
    constructor
    · simp only [List.cons_append, List.takeWhile_cons, ha, if_true, hrec.1]
    · simp only [List.cons_append, List.dropWhile_cons, ha, if_true, hrec.2]

/-- readNum13 on a one-to-three digit run followed by a non-digit boundary
consumes exactly the run. -/
theorem readNum13_exact (d rest : List Char) (hd : DigitRun13 d)
    (hr : ∀ c r2, rest = c :: r2 → isDigitC c = false) :
    readNum13 (d ++ rest) = some (digitsVal d, rest) := by
  obtain ⟨hne, hlen, hall⟩ := hd
  obtain ⟨ht, hw⟩ := span_append_exact isDigitC d rest hall hr
  simp only [readNum13, ht, hw]
  rw [if_pos ⟨List.length_pos.mpr hne, hlen⟩]

/-- A separator string is nonempty. -/
theorem pySep_ne_nil {s : List Char} (hs : PySepStr s) : s ≠ [] := by
  rcases hs with ⟨hne, _⟩ | ⟨w1, w2, _, _, heq⟩
  · exact hne
  · subst heq
    cases w1 <;> simp

/-- Every character of a separator string is whitespace or the comma. -/
theorem pySep_mem {s : List Char} (hs : PySepStr s) :
    ∀ c ∈ s, isPyWs c = true ∨ c = ',' := by
  rcases hs with ⟨_, hws⟩ | ⟨w1, w2, hw1, hw2, heq⟩
  · exact fun c hc => Or.inl (hws c hc)
  · subst heq
    intro c hc
    rcases List.mem_append.mp hc with hc1 | hc2
    · exact Or.inl (hw1 c hc1)
    · rcases List.mem_cons.mp hc2 with hc3 | hc4
      · exact Or.inr hc3
      · exact Or.inl (hw2 c hc4)

/-- A separator string followed by anything starts with a non-digit. -/
theorem pySep_append_head_not_digit {s : List Char} (hs : PySepStr s)
    (X : List Char) :
    ∀ c r2, s ++ X = c :: r2 → isDigitC c = false := by
  intro c r2 h
  cases s with
  | nil => exact absurd rfl (pySep_ne_nil hs)
  | cons cs tl =>
    rw [List.cons_append] at h
    injection h with h3 _
    subst h3
    rcases pySep_mem hs _ (List.mem_cons_self _ _) with hw | hc
    · exact ws_char_not_digit hw
    · rw [hc]
      decide

/-- A digit run followed by anything starts with a digit. -/
theorem digitRun_append_head {d : List Char} (hd : DigitRun13 d)
    (X : List Char) :
    ∀ c r2, d ++ X = c :: r2 → isDigitC c = true := by
  intro c r2 h
  obtain ⟨hne, _, hall⟩ := hd
  cases d with
  | nil => exact absurd rfl hne
  | cons a tl =>
    rw [List.cons_append] at h
    injection h with h3 _
    exact h3 ▸ hall a (List.mem_cons_self a tl)

/-- A digit run starts with a digit. -/
theorem digitRun_head {d : List Char} (hd : DigitRun13 d) :
    ∀ c r2, d = c :: r2 → isDigitC c = true := by
  intro c r2 h
  exact hd.2.2 c (h.symm ▸ List.mem_cons_self c r2)

/-- Skipping leading whitespace is the identity on a digit-headed list. -/
theorem skipWs_digit_head {l : List Char}
    (h : ∀ c r2, l = c :: r2 → isDigitC c = true) : skipWs l = l := by
  cases l with
  | nil => rfl
  | cons a tl =>
    have ha := h a tl rfl
    unfold skipWs
    rw [List.dropWhile_cons_of_neg
      (by rw [digit_char_not_ws ha]; exact Bool.noConfusion)]

/-- readPlainSep consumes exactly one PLAIN_RGB_RE separator when the
following character is neither whitespace nor a comma. -/
theorem readPlainSep_exact (s rest : List Char) (hs : PySepStr s)
    (hr : ∀ c r2, rest = c :: r2 → isPyWs c = false ∧ c ≠ ',') :
    readPlainSep (s ++ rest) = some rest := by
  rcases hs with ⟨hne, hws⟩ | ⟨w1, w2, hw1, hw2, heq⟩
  · have hdw : (s ++ rest).dropWhile isPyWs = rest :=
      (span_append_exact isPyWs s rest hws (fun c r2 h2 => (hr c r2 h2).1)).2
    have hlt : 0 < s.length := List.length_pos.mpr hne
    simp only [readPlainSep, hdw]
    cases rest with
    | nil =>
      split
      · rename_i r heq2
        exact List.noConfusion heq2
      · have hcond : ([] : List Char).length < (s ++ ([] : List Char)).length := by
          simp only [List.append_nil, List.length_nil]
          exact hlt
        rw [if_pos hcond]
    | cons c r2 =>
      have hc := hr c r2 rfl
      split
      · rename_i r heq2
        injection heq2 with h5 _
        exact absurd h5 hc.2
      · have hcond : (c :: r2).length < (s ++ c :: r2).length := by
          simp only [List.length_append]
          omega
        rw [if_pos hcond]
  · subst heq
    have hassoc2 : (w1 ++ ',' :: w2) ++ rest = w1 ++ (',' :: (w2 ++ rest)) := by
      simp
    have hdw1 : (w1 ++ (',' :: (w2 ++ rest))).dropWhile isPyWs
        = ',' :: (w2 ++ rest) :=
      (span_append_exact isPyWs w1 (',' :: (w2 ++ rest)) hw1
        (fun c r2 h2 => by
          injection h2 with h3 _
          rw [← h3]
          decide)).2
    have hdw2 : (w2 ++ rest).dropWhile isPyWs = rest :=
      (span_append_exact isPyWs w2 rest hw2 (fun c r2 h2 => (hr c r2 h2).1)).2
    rw [hassoc2]
    simp only [readPlainSep, hdw1]
    rw [hdw2]

/-- PLAIN_RGB_RE on a text of exactly three digit runs joined by two
separators matches and captures the three runs. -/
theorem plainRgb_exact (d1 s1 d2 s2 d3 : List Char)
    (h1 : DigitRun13 d1) (h2 : DigitRun13 d2) (h3 : DigitRun13 d3)
    (hs1 : PySepStr s1) (hs2 : PySepStr s2) :
    plainRgbMatch (d1 ++ (s1 ++ (d2 ++ (s2 ++ d3))))
      = some (digitsVal d1, digitsVal d2, digitsVal d3) := by
  have hskip := skipWs_digit_head (digitRun_append_head h1
    (s1 ++ (d2 ++ (s2 ++ d3))))
  have hn1 := readNum13_exact d1 (s1 ++ (d2 ++ (s2 ++ d3))) h1
    (pySep_append_head_not_digit hs1 _)
  have hsep1 := readPlainSep_exact s1 (d2 ++ (s2 ++ d3)) hs1
    (fun c r2 h => ⟨digit_char_not_ws (digitRun_append_head h2 _ c r2 h),
      (digit_char_ne (digitRun_append_head h2 _ c r2 h)).2.2.2⟩)
  have hn2 := readNum13_exact d2 (s2 ++ d3) h2
    (pySep_append_head_not_digit hs2 _)
  have hsep2 := readPlainSep_exact s2 d3 hs2
    (fun c r2 h => ⟨digit_char_not_ws (digitRun_head h3 c r2 h),
      (digit_char_ne (digitRun_head h3 c r2 h)).2.2.2⟩)
  have hn3 : readNum13 d3 = some (digitsVal d3, []) := by
    have h9 := readNum13_exact d3 [] h3 (fun c r2 h => List.noConfusion h)
    rwa [List.append_nil] at h9
  simp only [plainRgbMatch, Option.bind_eq_bind, Option.some_bind, hskip,
    hn1, hsep1, hn2, hsep2, hn3]
  rfl

/-- RGB_FUNC_RE.search finds nothing in a text without the letter r. -/
theorem rgbFuncSearch_none : ∀ l : List Char, (∀ c ∈ l, c ≠ 'r') →
    rgbFuncSearch l = none := by
  intro l
  unfold rgbFuncSearch
  induction l with
  | nil =>
    intro _
    rfl
  | cons c rest ih =>
    intro h
    have hat : rgbFuncAt (c :: rest) = none := by
      simp only [rgbFuncAt]
      split
      · rename_i rest2 heq
        injection heq with h1 _
        exact absurd h1 (h c (List.mem_cons_self c rest))
      · rfl
    simp only [searchPos, hat]
    exact ih (fun x hx => h x (List.mem_cons_of_mem c hx))

/-- HSL_FUNC_RE.search finds nothing in a text without the letter h. -/
theorem hslFuncSearch_none : ∀ l : List Char, (∀ c ∈ l, c ≠ 'h') →
    hslFuncSearch l = none := by
  intro l
  unfold hslFuncSearch
  induction l with
  | nil =>
    intro _
    rfl
  | cons c rest ih =>
    intro h
    have hat : hslFuncAt (c :: rest) = none := by
      simp only [hslFuncAt]
      split
      · rename_i rest2 heq
        injection heq with h1 _
        exact absurd h1 (h c (List.mem_cons_self c rest))
      · rfl
    simp only [searchPos, hat]
    exact ih (fun x hx => h x (List.mem_cons_of_mem c hx))

/-- HEX_SHORT_RE fails on a text that is not hash-headed and contains a
non-hex character. -/
theorem hexShortMatch_none {l : List Char} (hhead : ∀ r, l ≠ '#' :: r)
    (hbad : ∃ c ∈ l, isHexAny c = false) : hexShortMatch l = none := by
  simp only [hexShortMatch]
  split
  · rename_i a b c
    have hcond : ¬([a, b, c].all isHexAny = true) := by
      intro hall
      obtain ⟨x, hx, hxbad⟩ := hbad
      have hxx := List.all_eq_true.mp hall x hx
      rw [hxbad] at hxx
      exact Bool.noConfusion hxx
    rw [if_neg hcond]
  · rfl

/-- HEX_LONG_RE fails on a text that is not hash-headed and contains a
non-hex character. -/
theorem hexLongMatch_none {l : List Char} (hhead : ∀ r, l ≠ '#' :: r)
    (hbad : ∃ c ∈ l, isHexAny c = false) : hexLongMatch l = none := by
  have hcond : ¬(l.length = 6 ∧ l.all isHexAny = true) := by
    rintro ⟨_, hall⟩
    obtain ⟨x, hx, hxbad⟩ := hbad
    have hxx := List.all_eq_true.mp hall x hx
    rw [hxbad] at hxx
    exact Bool.noConfusion hxx
  simp only [hexLongMatch]
  rw [if_neg hcond]

/-- A failed short-hex match makes the short-hex retry step fail. -/
theorem shortHexStep_none {l : List Char} (h : hexShortMatch l = none) :
    shortHexStep l = none := by
  simp only [shortHexStep, h]

/-- A failed long-hex match makes the long-hex retry step fail. -/
theorem longHexStep_none {l : List Char} (h : hexLongMatch l = none) :
    longHexStep l = none := by
  simp only [longHexStep, h]

/-- Every key of the PIL colormap starts with a lowercase letter. -/
theorem pilColormap_keys_letter :
    (pilColormap.all fun e =>
      match e.1.data with
      | k :: _ => isLowerAZ k
      | [] => false) = true := by decide

/-- The PIL colormap has no digit-headed key. -/
theorem pilColormapLookup_none_of_digit {c0 : Char} (X : List Char)
    (h0 : isDigitC c0 = true) : pilColormapLookup (c0 :: X) = none := by
  have hfind : pilColormap.find? (fun p => p.1.data == c0 :: X) = none := by
    rw [List.find?_eq_none]
    intro e he hbeq
    have heq : e.1.data = c0 :: X := eq_of_beq hbeq
    have hkey := List.all_eq_true.mp pilColormap_keys_letter e he
    rw [heq] at hkey
    have hk : isLowerAZ c0 = true := hkey
    rw [digit_char_not_lower h0] at hk
    exact Bool.noConfusion hk
  simp only [pilColormapLookup, hfind]

/-- The anchored PIL hex pattern fails on a digit-headed text. -/
theorem pilHex_none_of_digit {c0 : Char} (X : List Char)
    (h0 : isDigitC c0 = true) : pilHex (c0 :: X) = none := by
  simp only [pilHex]
  split
  · rename_i r heq
    injection heq with h1 _
    exact absurd h1 (digit_char_ne h0).1
  · rfl

/-- The PIL rgb()-with-integers pattern fails on a digit-headed text. -/
theorem pilRgbInts_none_of_digit {c0 : Char} (X : List Char)
    (h0 : isDigitC c0 = true) : pilRgbInts (c0 :: X) = none := by
  simp only [pilRgbInts]
  split
  · rename_i rest heq
    injection heq with h1 _
    exact absurd h1 (digit_char_ne h0).2.1
  · rfl

/-- The PIL rgb()-with-percentages pattern fails on a digit-headed text. -/
theorem pilRgbPercent_none_of_digit {c0 : Char} (X : List Char)
    (h0 : isDigitC c0 = true) : pilRgbPercent (c0 :: X) = none := by
  simp only [pilRgbPercent]
  split
  · rename_i rest heq
    injection heq with h1 _
    exact absurd h1 (digit_char_ne h0).2.1
  · rfl

/-- The PIL hsl() pattern fails on a digit-headed text. -/
theorem pilHsl_none_of_digit {c0 : Char} (X : List Char)
    (h0 : isDigitC c0 = true) : pilHsl (c0 :: X) = none := by
  simp only [pilHsl]
  split
  · rename_i rest heq
    injection heq with h1 _
    exact absurd h1 (digit_char_ne h0).2.2.1
  · rfl

/-- The PIL hsv()/hsb() pattern fails on a digit-headed text. -/
theorem pilHsv_none_of_digit {c0 : Char} (X : List Char)
    (h0 : isDigitC c0 = true) : pilHsv (c0 :: X) = none := by
  simp only [pilHsv]
  split
  · rename_i x rest heq
    injection heq with h1 _
    exact absurd h1 (digit_char_ne h0).2.2.1
  · rfl

/-- The PIL rgba() pattern fails on a digit-headed text. -/
theorem pilRgba_none_of_digit {c0 : Char} (X : List Char)
    (h0 : isDigitC c0 = true) : pilRgba (c0 :: X) = none := by
  simp only [pilRgba]
  split
  · rename_i rest heq
    injection heq with h1 _
    exact absurd h1 (digit_char_ne h0).2.1
  · rfl

/-- PIL getrgb raises on every digit-headed text: the colormap has no such
key and every structured pattern is anchored on a non-digit. -/
theorem pilGetrgb_none_of_digit {c0 : Char} (X : List Char)
    (h0 : isDigitC c0 = true) : pilGetrgb ⟨c0 :: X⟩ = none := by
  have hmap : (String.data ⟨c0 :: X⟩).map pyLowerChar
      = c0 :: X.map pyLowerChar := by
    show (c0 :: X).map pyLowerChar = c0 :: X.map pyLowerChar
    rw [List.map_cons, pyLowerChar_digit h0]
  simp only [pilGetrgb, hmap, pilColormapLookup_none_of_digit _ h0,
    pilHex_none_of_digit _ h0, pilRgbInts_none_of_digit _ h0,
    pilRgbPercent_none_of_digit _ h0, pilHsl_none_of_digit _ h0,
    pilHsv_none_of_digit _ h0, pilRgba_none_of_digit _ h0]

/-- The getrgb wrapper fails on every digit-headed text. -/
theorem try_getrgb_none_of_digit {c0 : Char} (X : List Char)
    (h0 : isDigitC c0 = true) : try_imagecolor_getrgb ⟨c0 :: X⟩ = none := by
  simp only [try_imagecolor_getrgb, pilGetrgb_none_of_digit X h0]

/-- clamp255 on an integer literal value is truncation to 255. -/
theorem clamp255_ofNat (n : ℕ) : clamp255 (PyQ.ofNat n) = min n 255 := by
  have hr : pyRound (PyQ.ofNat n) = (n : ℤ) := by
    simp only [pyRound, PyQ.ofNat, PyQ.floorI, Nat.cast_one]
    rw [Int.fdiv_one]
    split_ifs <;> omega
  simp only [clamp255, hr]
  rw [Nat.min_def]
  split_ifs <;> omega

/-- C6: a plain triple of unsigned one-to-three-digit integer runs joined
by PLAIN_RGB_RE separators (whitespace runs, at most one comma each) is
resolved by the plain-triple branch of parse_color_input, each component
clamped to [0,255]: every earlier strategy (PIL getrgb, hex retries,
rgb()/hsl() searches) fails on such a text, the regex captures the three
runs, and clamp255 truncates each value at 255. -/
theorem c6_plain_triple_clamped (d1 s1 d2 s2 d3 : List Char)
    (h1 : DigitRun13 d1) (h2 : DigitRun13 d2) (h3 : DigitRun13 d3)
    (hs1 : PySepStr s1) (hs2 : PySepStr s2) :
    resolveText ⟨d1 ++ s1 ++ d2 ++ s2 ++ d3⟩ =
      .ok (min (digitsVal d1) 255, min (digitsVal d2) 255,
        min (digitsVal d3) 255) := by
  have hassoc : d1 ++ s1 ++ d2 ++ s2 ++ d3
      = d1 ++ (s1 ++ (d2 ++ (s2 ++ d3))) := by
    simp [List.append_assoc]
  have hmem : ∀ c ∈ d1 ++ (s1 ++ (d2 ++ (s2 ++ d3))),
      isDigitC c = true ∨ isPyWs c = true ∨ c = ',' := by
    intro c hc
    simp only [List.mem_append] at hc
    rcases hc with hc | hc | hc | hc | hc
    · exact Or.inl (h1.2.2 c hc)
    · rcases pySep_mem hs1 c hc with hw | hcm
      · exact Or.inr (Or.inl hw)
      · exact Or.inr (Or.inr hcm)
    · exact Or.inl (h2.2.2 c hc)
    · rcases pySep_mem hs2 c hc with hw | hcm
      · exact Or.inr (Or.inl hw)
      · exact Or.inr (Or.inr hcm)
    · exact Or.inl (h3.2.2 c hc)
  obtain ⟨a, tl, hcons⟩ : ∃ a tl,
      d1 ++ (s1 ++ (d2 ++ (s2 ++ d3))) = a :: tl := by
    cases hd : d1 with
    | nil => exact absurd hd h1.1
    | cons a t =>
      exact ⟨a, t ++ (s1 ++ (d2 ++ (s2 ++ d3))), by rw [List.cons_append]⟩
  have ha : isDigitC a = true :=
    digitRun_append_head h1 (s1 ++ (d2 ++ (s2 ++ d3))) a tl hcons
  have hLne : d1 ++ (s1 ++ (d2 ++ (s2 ++ d3))) ≠ [] := by
    rw [hcons]
    exact List.cons_ne_nil a tl
  obtain ⟨cs1, ts1, hs1cons⟩ : ∃ c t, s1 = c :: t := by
    cases hsc : s1 with
    | nil => exact absurd hsc (pySep_ne_nil hs1)
    | cons c t => exact ⟨c, t, rfl⟩
  have hcs1mem : cs1 ∈ d1 ++ (s1 ++ (d2 ++ (s2 ++ d3))) := by
    rw [hs1cons]
    simp
  have hcs1hex : isHexAny cs1 = false := by
    rcases pySep_mem hs1 cs1 (by rw [hs1cons]; exact List.mem_cons_self _ _)
      with hw | hcm
    · exact ws_char_not_hex hw
    · rw [hcm]
      decide
  obtain ⟨z, hz⟩ : ∃ z, d3.getLast? = some z := by
    cases hd3 : d3 with
    | nil => exact absurd hd3 h3.1
    | cons b t =>
      exact ⟨(b :: t).getLast (List.cons_ne_nil b t),
        List.getLast?_eq_getLast _ _⟩
  have hzmem : z ∈ d3 := List.mem_of_mem_getLast? hz
  have hlast : (d1 ++ (s1 ++ (d2 ++ (s2 ++ d3)))).getLast? = some z := by
    have e1 : (s2 ++ d3).getLast? = some z := by
      rw [List.getLast?_append, hz]
      rfl
    have e2 : (d2 ++ (s2 ++ d3)).getLast? = some z := by
      rw [List.getLast?_append, e1]
      rfl
    have e3 : (s1 ++ (d2 ++ (s2 ++ d3))).getLast? = some z := by
      rw [List.getLast?_append, e2]
      rfl
    rw [List.getLast?_append, e3]
    rfl
  have hstrip : pyStripL (d1 ++ (s1 ++ (d2 ++ (s2 ++ d3))))
      = d1 ++ (s1 ++ (d2 ++ (s2 ++ d3))) := by
    refine pyStripL_id _ ?_ ?_
    · intro c hcHead
      rw [hcons, List.head?_cons] at hcHead
      cases hcHead
      exact digit_char_not_ws ha
    · intro c hcLast
      rw [hlast] at hcLast
      cases hcLast
      exact digit_char_not_ws (h3.2.2 z hzmem)
  have hdata : (⟨d1 ++ (s1 ++ (d2 ++ (s2 ++ d3)))⟩ : String).data
      = d1 ++ (s1 ++ (d2 ++ (s2 ++ d3))) := rfl
  have hget : try_imagecolor_getrgb ⟨d1 ++ (s1 ++ (d2 ++ (s2 ++ d3)))⟩
      = none := by
    rw [hcons]
    exact try_getrgb_none_of_digit tl ha
  have hshort : shortHexStep (d1 ++ (s1 ++ (d2 ++ (s2 ++ d3)))) = none := by
    refine shortHexStep_none ?_
    rw [hcons]
    refine hexShortMatch_none ?_ ?_
    · intro r hEq
      injection hEq with h5 _
      exact absurd h5 (digit_char_ne ha).1
    · exact ⟨cs1, by rw [← hcons]; exact hcs1mem, hcs1hex⟩
  have hlong : longHexStep (d1 ++ (s1 ++ (d2 ++ (s2 ++ d3)))) = none := by
    refine longHexStep_none ?_
    rw [hcons]
    refine hexLongMatch_none ?_ ?_
    · intro r hEq
      injection hEq with h5 _
      exact absurd h5 (digit_char_ne ha).1
    · exact ⟨cs1, by rw [← hcons]; exact hcs1mem, hcs1hex⟩
  have hrgbS : rgbFuncSearch (d1 ++ (s1 ++ (d2 ++ (s2 ++ d3)))) = none := by
    refine rgbFuncSearch_none _ ?_
    intro c hc
    rcases hmem c hc with hd | hw | hcm
    · exact (digit_char_ne hd).2.1
    · exact (ws_char_ne_rh hw).1
    · rw [hcm]
      decide
  have hhslS : hslFuncSearch (d1 ++ (s1 ++ (d2 ++ (s2 ++ d3)))) = none := by
    refine hslFuncSearch_none _ ?_
    intro c hc
    rcases hmem c hc with hd | hw | hcm
    · exact (digit_char_ne hd).2.2.1
    · exact (ws_char_ne_rh hw).2
    · rw [hcm]
      decide
  have hplain := plainRgb_exact d1 s1 d2 s2 d3 h1 h2 h3 hs1 hs2
  rw [hassoc]
  unfold resolveText parse_color_input
  rw [hdata, hstrip]
  rw [if_neg hLne]
  dsimp only
  simp only [hdata, hstrip, hget, hshort, hlong, hrgbS, hhslS, hplain,
    clamp255_ofNat]

/-- C6 witness: the plain triple 300,7 2 (a comma separator, then a space
separator) resolves to (255, 7, 2), the first component clamped. -/
theorem c6_plain_triple_clamped_witness :
    resolveText "300,7 2" = .ok (255, 7, 2) := by
  have h := c6_plain_triple_clamped ['3', '0', '0'] [','] ['7'] [' '] ['2']
    ⟨by decide, by decide, by decide⟩ ⟨by decide, by decide, by decide⟩
    ⟨by decide, by decide, by decide⟩
    (Or.inr ⟨[], [], by simp, by simp, rfl⟩)
    (Or.inl ⟨by decide, by decide⟩)
  exact h

end ColorToHex
